import Mathlib

/-!
Shallow embedding of the Disemb-Arc bookmark-spaces extension core:
the tree document model (spaces, folders, bookmarks), the mutation API
(`onMoveItem`, `onReorderItem`), the Chrome host-sync engine
(`syncSpaceToChrome`, `syncAllSpacesToChrome`, pull handlers), the Arc
sidebar import reduction (`addItemIfNewer`, `buildArcNode`, `rgbToHex`)
and the persistence round-trip.  Definitions mirror the JavaScript
source files (`utils.js`, `app.js`, `sync.js`, `storage.js`); JavaScript
in-place mutation is modelled by functional update of the first
deep-first match, and the single-threaded event loop by explicit state
passing.
-/

/-- Tree item: the tagged union of the source (`type: 'folder' | 'bookmark'`).
A bookmark record carries `id`, `name`, `url`, optional `chromeId`;
a folder carries `id`, `name`, `expanded`, `children`, optional `chromeId`.
Host (Chrome) node identities are modelled as natural numbers. -/
inductive Item : Type where
  | bookmark (id name url : String) (chromeId : Option Nat)
  | folder (id name : String) (expanded : Bool) (children : List Item) (chromeId : Option Nat)

/-- The `id` field shared by both variants. -/
def Item.id : Item → String
  | .bookmark i _ _ _ => i
  | .folder i _ _ _ _ => i

/-- The `chromeId` field shared by both variants. -/
def Item.chromeId : Item → Option Nat
  | .bookmark _ _ _ c => c
  | .folder _ _ _ _ c => c

/-- Test `item.type === 'folder'`. -/
def Item.isFolder : Item → Bool
  | .bookmark _ _ _ _ => false
  | .folder _ _ _ _ _ => true

/-- A space (called a box throughout the source): identity, title,
accent color, ordered items, optional bound Chrome folder id. -/
structure Box where
  id : String
  title : String
  color : String
  items : List Item
  chromeId : Option Nat

/-- utils.js `findItemById`: depth-first search, item before its children,
returning the first item whose `id` matches. -/
def findItemById : List Item → String → Option Item
  | [], _ => none
  | it :: rest, i =>
    if it.id = i then some it
    else
      match it with
      | .folder _ _ _ children _ =>
        match findItemById children i with
        | some r => some r
        | none => findItemById rest i
      | .bookmark _ _ _ _ => findItemById rest i

/-- utils.js `findParentById`: returns `none` when the id is absent
(JS `undefined`), `some none` when the item sits at the top level
(JS `null`), and `some (some p)` when folder `p` is the parent. -/
def findParentById : List Item → String → Option Item → Option (Option Item)
  | [], _, _ => none
  | it :: rest, i, parent =>
    if it.id = i then some parent
    else
      match it with
      | .folder _ _ _ children _ =>
        match findParentById children i (some it) with
        | some r => some r
        | none => findParentById rest i parent
      | .bookmark _ _ _ _ => findParentById rest i parent

/-- Splice the first item with the given id out of one array level
(the `findIndex` + `splice` first phase of utils.js `removeItemById`). -/
def spliceById : List Item → String → Option (List Item)
  | [], _ => none
  | it :: rest, i =>
    if it.id = i then some rest
    else (spliceById rest i).map (it :: ·)

mutual

/-- utils.js `removeItemById`: first scan the current level for the id
and splice it out there; otherwise recurse into each item's children in
order.  Returns the updated forest and whether a removal occurred. -/
def removeItemById (items : List Item) (i : String) : List Item × Bool :=
  match spliceById items i with
  | some items2 => (items2, true)
  | none => removeInChildren items i

/-- The second phase of utils.js `removeItemById`: recurse into children. -/
def removeInChildren : List Item → String → List Item × Bool
  | [], _ => ([], false)
  | it :: rest, i =>
    match it with
    | .folder fid name exp children cid =>
      match removeItemById children i with
      | (children2, true) => (.folder fid name exp children2 cid :: rest, true)
      | (_, false) =>
        let r := removeInChildren rest i
        (it :: r.1, r.2)
    | .bookmark _ _ _ _ =>
      let r := removeInChildren rest i
      (it :: r.1, r.2)

end

/-- Replace the first depth-first item whose id matches by `f` of it;
this models JavaScript's in-place mutation of the object returned by
`findItemById` (identical traversal order). -/
def modifyItemById : List Item → String → (Item → Item) → List Item × Bool
  | [], _, _ => ([], false)
  | it :: rest, i, f =>
    if it.id = i then (f it :: rest, true)
    else
      match it with
      | .folder fid name exp children cid =>
        match modifyItemById children i f with
        | (cs, true) => (.folder fid name exp cs cid :: rest, true)
        | (_, false) =>
          let r := modifyItemById rest i f
          (it :: r.1, r.2)
      | .bookmark _ _ _ _ =>
        let r := modifyItemById rest i f
        (it :: r.1, r.2)

mutual

/-- app.js `isDescendant`: whether `targetId` names a strict descendant
of `it` (bookmarks have no children). -/
def isDescendant : Item → String → Bool
  | .bookmark _ _ _ _, _ => false
  | .folder _ _ _ children _, t => descendantInList children t

/-- The loop body of app.js `isDescendant` over a child list. -/
def descendantInList : List Item → String → Bool
  | [], _ => false
  | c :: rest, t => c.id == t || isDescendant c t || descendantInList rest t

end

mutual

/-- All identities of an item's subtree in depth-first order. -/
def itemIds : Item → List String
  | .bookmark i _ _ _ => [i]
  | .folder i _ _ children _ => i :: itemsIds children

/-- All identities of a forest in depth-first order. -/
def itemsIds : List Item → List String
  | [] => []
  | it :: rest => itemIds it ++ itemsIds rest

end

/-- app.js `findBox`: first box with the given id. -/
def findBox (boxes : List Box) (boxId : String) : Option Box :=
  boxes.find? (fun b => b.id = boxId)

/-- Apply `f` to the first box with the given id (in-place mutation of
the object returned by `findBox`). -/
def updateBox : List Box → String → (Box → Box) → List Box
  | [], _, _ => []
  | b :: rest, i, f => if b.id = i then f b :: rest else b :: updateBox rest i f

/-- Push `item` onto a folder's children and force `expanded := true`
(the target-parent branch of `handlers.onMoveItem`). -/
def appendChildExpand (item : Item) : Item → Item
  | .folder fid name _ children cid => .folder fid name true (children ++ [item]) cid
  | b => b

/-- app.js `handlers.onMoveItem`: relocate an item to the end of the
target container.  The only guard in the source is
`item.type === 'folder' && targetParentId === itemId`; after
`removeItemById` the target parent is looked up in the mutated tree. -/
def onMoveItem (boxes : List Box) (sourceBoxId itemId targetBoxId : String)
    (targetParentId : Option String) : List Box :=
  match findBox boxes sourceBoxId, findBox boxes targetBoxId with
  | some sourceBox, some _ =>
    match findItemById sourceBox.items itemId with
    | none => boxes
    | some item =>
      if item.isFolder ∧ targetParentId = some itemId then boxes
      else
        let boxes1 := updateBox boxes sourceBoxId
          (fun b => { b with items := (removeItemById b.items itemId).1 })
        match targetParentId with
        | some pid =>
          match findBox boxes1 targetBoxId with
          | some targetBox1 =>
            match findItemById targetBox1.items pid with
            | some (.folder _ _ _ _ _) =>
              updateBox boxes1 targetBoxId
                (fun b => { b with items := (modifyItemById b.items pid (appendChildExpand item)).1 })
            | _ => boxes1
          | none => boxes1
        | none =>
          updateBox boxes1 targetBoxId (fun b => { b with items := b.items ++ [item] })
  | _, _ => boxes

/-- Replace a folder's children array (used to write the spliced target
array of `onReorderItem` back into the tree). -/
def setChildren (newChildren : List Item) : Item → Item
  | .folder fid name exp _ cid => .folder fid name exp newChildren cid
  | b => b

/-- app.js `handlers.onReorderItem`: relocate an item next to a target
sibling.  The target array is captured as the target's parent array; the
source is removed first, then the insertion index is computed on the
post-removal array (`findIndex` returning -1 aborts after the removal
already happened). -/
def onReorderItem (boxes : List Box) (sourceBoxId itemId targetBoxId targetItemId : String)
    (position : String) : List Box :=
  match findBox boxes sourceBoxId, findBox boxes targetBoxId with
  | some sourceBox, some targetBox =>
    match findItemById sourceBox.items itemId with
    | none => boxes
    | some item =>
      match findItemById targetBox.items targetItemId with
      | none => boxes
      | some _ =>
        let targetParentPre := findParentById targetBox.items targetItemId none
        if item.isFolder ∧ isDescendant item targetItemId then boxes
        else
          let boxes1 := updateBox boxes sourceBoxId
            (fun b => { b with items := (removeItemById b.items itemId).1 })
          let targetArray :=
            match findBox boxes1 targetBoxId with
            | none => []
            | some tb =>
              match targetParentPre with
              | some (some p) =>
                match findItemById tb.items p.id with
                | some (.folder _ _ _ cs _) => cs
                | _ => []
              | _ => tb.items
          match targetArray.findIdx? (fun it2 => it2.id == targetItemId) with
          | none => boxes1
          | some idx0 =>
            let idx := if position = "after" then idx0 + 1 else idx0
            let newArr := targetArray.take idx ++ item :: targetArray.drop idx
            match targetParentPre with
            | some (some p) =>
              updateBox boxes1 targetBoxId
                (fun b => { b with items := (modifyItemById b.items p.id (setChildren newArr)).1 })
            | _ =>
              updateBox boxes1 targetBoxId (fun b => { b with items := newArr })
  | _, _ => boxes

/-- One host (Chrome bookmarks) API call, as recorded in a push trace. -/
inductive HostOp : Type where
  | get (id : Nat)
  | create (parentId : Nat) (title : String) (url : Option String)
  | update (id : Nat) (title : String) (url : Option String)
  | removeTree (id : Nat)
  | removeNode (id : Nat)
  deriving DecidableEq, Repr

/-- Whether a host operation is a node creation. -/
def HostOp.isCreate : HostOp → Bool
  | .create _ _ _ => true
  | _ => false

/-- A node of the host bookmark store. -/
structure HostNode where
  parentId : Nat
  title : String
  url : Option String
  deriving DecidableEq, Repr

/-- The host bookmark store: an association list of nodes keyed by host
identity plus a fresh-identity counter. -/
structure HostStore where
  nodes : List (Nat × HostNode)
  nextId : Nat
  deriving DecidableEq, Repr

/-- chrome.bookmarks.get: succeeds exactly when the identity is present. -/
def HostStore.lookup (s : HostStore) (i : Nat) : Option HostNode :=
  (s.nodes.find? (fun p => p.1 == i)).map (·.2)

/-- chrome.bookmarks.create: allocates a fresh identity. -/
def HostStore.create (s : HostStore) (parentId : Nat) (title : String)
    (url : Option String) : Nat × HostStore :=
  (s.nextId, ⟨s.nodes ++ [(s.nextId, ⟨parentId, title, url⟩)], s.nextId + 1⟩)

/-- chrome.bookmarks.update with only a title (folders): url untouched. -/
def HostStore.updateTitle (s : HostStore) (i : Nat) (title : String) : HostStore :=
  ⟨s.nodes.map (fun p => if p.1 == i then (p.1, ⟨p.2.parentId, title, p.2.url⟩) else p), s.nextId⟩

/-- chrome.bookmarks.update with title and url (bookmarks). -/
def HostStore.updateTitleUrl (s : HostStore) (i : Nat) (title url : String) : HostStore :=
  ⟨s.nodes.map (fun p => if p.1 == i then (p.1, ⟨p.2.parentId, title, some url⟩) else p), s.nextId⟩

/-- The fixed Chrome bookmarks-bar root under which spaces are mirrored. -/
def BOOKMARKS_BAR_ID : Nat := 1

/-- The verify step shared by sync.js push functions: a bound `chromeId`
is checked with `chrome.bookmarks.get`; a failed lookup reverts the
entity to unbound.  Returns the surviving binding and the trace of the
attempted call tagged with the current `isSyncing` flag. -/
def verifyChromeId (s : HostStore) (cid : Option Nat) (flag : Bool) :
    Option Nat × List (Bool × HostOp) :=
  match cid with
  | none => (none, [])
  | some c => (if (s.lookup c).isSome then some c else none, [(flag, .get c)])

/-- Result of pushing an item list: updated items (with bindings),
updated store, and the trace of host calls tagged with the `isSyncing`
flag current when each was issued. -/
structure ItemsSyncResult where
  items : List Item
  store : HostStore
  trace : List (Bool × HostOp)

/-- sync.js `syncItemsToChrome`: per item, verify the binding, create the
host node when unbound (binding the fresh identity) or update it in
place when bound, then recurse into a folder's children under the now
known host parent, then continue with the remaining siblings. -/
def syncItemsToChrome (items : List Item) (parentChromeId : Nat) (s : HostStore)
    (flag : Bool) : ItemsSyncResult :=
  match items with
  | [] => ⟨[], s, []⟩
  | it :: rest =>
    match it with
    | .folder id name exp children cid0 =>
      let v := verifyChromeId s cid0 flag
      let step : Nat × HostStore × List (Bool × HostOp) :=
        match v.1 with
        | none =>
          let c := s.create parentChromeId name none
          (c.1, c.2, [(flag, HostOp.create parentChromeId name none)])
        | some c => (c, s.updateTitle c name, [(flag, HostOp.update c name none)])
      let rc := syncItemsToChrome children step.1 step.2.1 flag
      let rr := syncItemsToChrome rest parentChromeId rc.store flag
      ⟨.folder id name exp rc.items (some step.1) :: rr.items, rr.store,
        v.2 ++ step.2.2 ++ rc.trace ++ rr.trace⟩
    | .bookmark id name url cid0 =>
      let v := verifyChromeId s cid0 flag
      let step : Nat × HostStore × List (Bool × HostOp) :=
        match v.1 with
        | none =>
          let c := s.create parentChromeId name (some url)
          (c.1, c.2, [(flag, HostOp.create parentChromeId name (some url))])
        | some c => (c, s.updateTitleUrl c name url, [(flag, HostOp.update c name (some url))])
      let rr := syncItemsToChrome rest parentChromeId step.2.1 flag
      ⟨.bookmark id name url (some step.1) :: rr.items, rr.store, v.2 ++ step.2.2 ++ rr.trace⟩

/-- Result of pushing one space: the rebound box, the store, the final
`isSyncing` flag, and the trace of host calls with their flag values. -/
structure SpaceSyncResult where
  box : Box
  store : HostStore
  flag : Bool
  trace : List (Bool × HostOp)

/-- sync.js `syncSpaceToChrome`: no-op when the host API is absent;
otherwise sets `isSyncing`, verifies or (re)creates the space folder
under the bookmarks bar, pushes the items, and clears `isSyncing` in the
`finally` block. -/
def syncSpaceToChrome (avail : Bool) (box : Box) (s : HostStore) (flagIn : Bool) :
    SpaceSyncResult :=
  if !avail then ⟨box, s, flagIn, []⟩
  else
    let flag := true
    let v := verifyChromeId s box.chromeId flag
    let step : Nat × HostStore × List (Bool × HostOp) :=
      match v.1 with
      | none =>
        let c := s.create BOOKMARKS_BAR_ID box.title none
        (c.1, c.2, [(flag, HostOp.create BOOKMARKS_BAR_ID box.title none)])
      | some c => (c, s.updateTitle c box.title, [(flag, HostOp.update c box.title none)])
    let ri := syncItemsToChrome box.items step.1 step.2.1 flag
    ⟨{ box with chromeId := some step.1, items := ri.items }, ri.store, false,
      v.2 ++ step.2.2 ++ ri.trace⟩

/-- Result of a full push pass over all spaces. -/
structure AllSyncResult where
  boxes : List Box
  store : HostStore
  flag : Bool
  trace : List (Bool × HostOp)

/-- The `for (const box of boxes)` loop of `syncAllSpacesToChrome`,
threading the store and the `isSyncing` flag through the per-space
pushes. -/
def syncSpacesLoop : List Box → HostStore → Bool → AllSyncResult
  | [], s, flag => ⟨[], s, flag, []⟩
  | b :: rest, s, flag =>
    let r1 := syncSpaceToChrome true b s flag
    let r2 := syncSpacesLoop rest r1.store r1.flag
    ⟨r1.box :: r2.boxes, r2.store, r2.flag, r1.trace ++ r2.trace⟩

/-- sync.js `syncAllSpacesToChrome`: returns the input boxes unchanged
when the host API is absent; otherwise sets `isSyncing`, pushes every
space in order, and clears the flag in the `finally` block. -/
def syncAllSpacesToChrome (avail : Bool) (boxes : List Box) (s : HostStore)
    (flagIn : Bool) : AllSyncResult :=
  if !avail then ⟨boxes, s, flagIn, []⟩
  else
    let r := syncSpacesLoop boxes s true
    ⟨r.boxes, r.store, false, r.trace⟩

/-- sync.js `removeSpaceFromChrome`: no host call when the API is absent
or the space is unbound; otherwise `removeTree` bracketed by the flag. -/
def removeSpaceFromChrome (avail : Bool) (box : Box) (flagIn : Bool) :
    Bool × List (Bool × HostOp) :=
  match avail, box.chromeId with
  | true, some c => (false, [(true, HostOp.removeTree c)])
  | _, _ => (flagIn, [])

/-- sync.js `removeItemFromChrome`: no host call when the API is absent
or the item is unbound; folders use `removeTree`, bookmarks `remove`. -/
def removeItemFromChrome (avail : Bool) (it : Item) (flagIn : Bool) :
    Bool × List (Bool × HostOp) :=
  match avail, it.chromeId with
  | true, some c => (false, [(true, if it.isFolder then HostOp.removeTree c else HostOp.removeNode c)])
  | _, _ => (flagIn, [])

/-- Truthiness of an optional JavaScript string: present and non-empty. -/
def truthyStr : Option String → Bool
  | none => false
  | some s => !(s == "")

/-- Application state touched by the pull handlers: the box list and the
currently expanded space. -/
structure AppState where
  boxes : List Box
  expandedSpaceId : Option String

/-- Payload of a Chrome `onCreated` notification. -/
structure ChromeBookmarkNode where
  parentId : Nat
  title : String
  url : Option String

/-- A host-originated change notification, one constructor per Chrome
bookmarks event kind. -/
inductive ChromeEvent : Type where
  | created (id : Nat) (bookmark : ChromeBookmarkNode)
  | removed (id : Nat)
  | changed (id : Nat) (title : Option String) (url : Option String)
  | moved (id : Nat)

/-- sync.js `findInItems`: depth-first search by bound Chrome identity. -/
def findInItems : List Item → Nat → Option Item
  | [], _ => none
  | it :: rest, cid =>
    if it.chromeId = some cid then some it
    else
      match it with
      | .folder _ _ _ children _ =>
        match findInItems children cid with
        | some r => some r
        | none => findInItems rest cid
      | .bookmark _ _ _ _ => findInItems rest cid

/-- Result shape of sync.js `findItemByChromeId`: a space or an item. -/
inductive ChromeFindResult : Type where
  | space (b : Box)
  | item (it : Item)

/-- sync.js `findItemByChromeId`: per box, the box itself first, then its
items depth-first. -/
def findItemByChromeId : List Box → Nat → Option ChromeFindResult
  | [], _ => none
  | b :: rest, cid =>
    if b.chromeId = some cid then some (.space b)
    else
      match findInItems b.items cid with
      | some it => some (.item it)
      | none => findItemByChromeId rest cid

/-- sync.js `hasDescendantWithChromeId`. -/
def hasDescendantWithChromeId : List Item → Nat → Bool
  | [], _ => false
  | it :: rest, cid =>
    if it.chromeId = some cid then true
    else
      match it with
      | .folder _ _ _ children _ =>
        hasDescendantWithChromeId children cid || hasDescendantWithChromeId rest cid
      | .bookmark _ _ _ _ => hasDescendantWithChromeId rest cid

/-- sync.js `findParentSpace`: the first box that is bound to the given
Chrome identity or contains an item bound to it. -/
def findParentSpace : List Box → Nat → Option Box
  | [], _ => none
  | b :: rest, cid =>
    if b.chromeId = some cid then some b
    else if hasDescendantWithChromeId b.items cid then some b
    else findParentSpace rest cid

/-- Replace the first depth-first item bound to the given Chrome identity
by `f` of it (functional form of mutating the object returned by
`findItemByChromeId`). -/
def modifyItemByChromeId : List Item → Nat → (Item → Item) → List Item × Bool
  | [], _, _ => ([], false)
  | it :: rest, cid, f =>
    if it.chromeId = some cid then (f it :: rest, true)
    else
      match it with
      | .folder fid name exp children c =>
        match modifyItemByChromeId children cid f with
        | (cs, true) => (.folder fid name exp cs c :: rest, true)
        | (_, false) =>
          let r := modifyItemByChromeId rest cid f
          (it :: r.1, r.2)
      | .bookmark _ _ _ _ =>
        let r := modifyItemByChromeId rest cid f
        (it :: r.1, r.2)

/-- Push a new child onto a folder's children (the created-event handler
mutates `parentResult.item.children` without touching `expanded`). -/
def appendChild (newItem : Item) : Item → Item
  | .folder fid name exp children cid => .folder fid name exp (children ++ [newItem]) cid
  | b => b

/-- Write the created-event mutation back into the box list, following
the traversal order of `findItemByChromeId`: the first box bound to the
parent identity receives the item at top level; otherwise the first box
containing the bound parent item receives it inside that item when it is
a folder (a bound bookmark parent receives nothing, as in the source). -/
def pushUnderChromeParent : List Box → Nat → Item → List Box
  | [], _, _ => []
  | b :: rest, pid, newItem =>
    if b.chromeId = some pid then { b with items := b.items ++ [newItem] } :: rest
    else
      match findInItems b.items pid with
      | some it =>
        (if it.isFolder then
          { b with items := (modifyItemByChromeId b.items pid (appendChild newItem)).1 }
         else b) :: rest
      | none => b :: pushUnderChromeParent rest pid newItem

/-- utils-style removal by Chrome identity (sync.js `removeItemByChromeId`):
level-first, then recursing into children. -/
def spliceByChromeId : List Item → Nat → Option (List Item)
  | [], _ => none
  | it :: rest, cid =>
    if it.chromeId = some cid then some rest
    else (spliceByChromeId rest cid).map (it :: ·)

mutual

/-- sync.js `removeItemByChromeId`. -/
def removeItemByChromeId (items : List Item) (cid : Nat) : List Item × Bool :=
  match spliceByChromeId items cid with
  | some items2 => (items2, true)
  | none => removeInChildrenByChromeId items cid

/-- The child-recursion phase of `removeItemByChromeId`. -/
def removeInChildrenByChromeId : List Item → Nat → List Item × Bool
  | [], _ => ([], false)
  | it :: rest, cid =>
    match it with
    | .folder fid name exp children c =>
      match removeItemByChromeId children cid with
      | (children2, true) => (.folder fid name exp children2 c :: rest, true)
      | (_, false) =>
        let r := removeInChildrenByChromeId rest cid
        (it :: r.1, r.2)
    | .bookmark _ _ _ _ =>
      let r := removeInChildrenByChromeId rest cid
      (it :: r.1, r.2)

end

/-- The `for (const box of boxes) if (removeItemByChromeId(...)) break`
loop of the removed-event handler. -/
def removeFirstBoxItemByChromeId : List Box → Nat → List Box
  | [], _ => []
  | b :: rest, cid =>
    match removeItemByChromeId b.items cid with
    | (items2, true) => { b with items := items2 } :: rest
    | (_, false) => b :: removeFirstBoxItemByChromeId rest cid

/-- Field update of the changed-event handler on an item:
`name = changeInfo.title || name`, and for bookmarks
`url = changeInfo.url` when truthy. -/
def applyItemChange (t u : Option String) : Item → Item
  | .bookmark i n url c =>
    .bookmark i (if truthyStr t then t.getD "" else n)
      (if truthyStr u then u.getD "" else url) c
  | .folder i n e ch c => .folder i (if truthyStr t then t.getD "" else n) e ch c

/-- Write the changed-event mutation back into the box list, following
the traversal order of `findItemByChromeId`. -/
def applyChangedToBoxes : List Box → Nat → Option String → Option String → List Box
  | [], _, _, _ => []
  | b :: rest, cid, t, u =>
    if b.chromeId = some cid then
      { b with title := if truthyStr t then t.getD "" else b.title } :: rest
    else
      match findInItems b.items cid with
      | some _ => { b with items := (modifyItemByChromeId b.items cid (applyItemChange t u)).1 } :: rest
      | none => b :: applyChangedToBoxes rest cid t u

/-- app.js `handleChromeBookmarkChange`: translate one host notification
into local state.  `freshId` stands for the `generateId()` call of the
created case.  The moved case is a no-op in the source (TODO comment). -/
def handleChromeBookmarkChange (st : AppState) (freshId : String) : ChromeEvent → AppState
  | .created cid bm =>
    match findParentSpace st.boxes bm.parentId with
    | none => st
    | some _ =>
      let newItem : Item :=
        if truthyStr bm.url then .bookmark freshId bm.title (bm.url.getD "") (some cid)
        else .folder freshId bm.title true [] (some cid)
      { st with boxes := pushUnderChromeParent st.boxes bm.parentId newItem }
  | .removed cid =>
    match findItemByChromeId st.boxes cid with
    | none => st
    | some (.space b) =>
      let boxes2 := st.boxes.filter (fun bb => bb.id ≠ b.id)
      let exp2 :=
        if st.expandedSpaceId = some b.id then
          match boxes2 with
          | [] => none
          | bb :: _ => some bb.id
        else st.expandedSpaceId
      ⟨boxes2, exp2⟩
    | some (.item _) => { st with boxes := removeFirstBoxItemByChromeId st.boxes cid }
  | .changed cid t u =>
    match findItemByChromeId st.boxes cid with
    | none => st
    | some _ => { st with boxes := applyChangedToBoxes st.boxes cid t u }
  | .moved _ => st

/-- The listener registered by sync.js `setupChromeListeners` for every
event kind: `if (isSyncing) return;` before invoking the change
callback, which is app.js `handleChromeBookmarkChange`. -/
def chromeListener (isSyncing : Bool) (st : AppState) (freshId : String)
    (ev : ChromeEvent) : AppState :=
  if isSyncing then st else handleChromeBookmarkChange st freshId ev

/-- Embedded saved-tab data of an Arc item record (`item.data.tab`). -/
structure TabRec where
  savedTitle : Option String
  savedURL : Option String
  deriving DecidableEq, Repr

/-- One Arc sidebar item record as consumed by utils.js `parseArcJson`:
identity, optional title, ordered child identities, parent pointer, and
optional embedded tab data. -/
structure ArcItemRec where
  id : String
  title : Option String
  childrenIds : List String
  parentID : Option String
  tab : Option TabRec
  deriving DecidableEq, Repr

/-- A wrapped entry of `firebaseSyncState.syncData.items` or
`sidebar.items`: an optional `value` record and an optional
`lastChangeDate` timestamp. -/
structure SyncEntry where
  value : Option ArcItemRec
  lastChangeDate : Option Nat
  deriving DecidableEq, Repr

/-- JavaScript's `Number.MAX_SAFE_INTEGER`, the sentinel timestamp given
to container (current-state) item records. -/
def MAX_SAFE_INTEGER : Nat := 2 ^ 53 - 1

/-- The master item map paired with its change-date map (`masterItemMap`
and `itemChangeDates` are always updated together, so they are modelled
as one association list in insertion order). -/
abbrev MasterMap := List (String × ArcItemRec × Nat)

/-- The date `itemChangeDates.get(id) || 0` reads for an identity. -/
def mapGetDate (m : MasterMap) (i : String) : Nat :=
  match m.find? (fun e => e.1 == i) with
  | some e => e.2.2
  | none => 0

/-- The record the master map currently holds for an identity. -/
def mapGetRec (m : MasterMap) (i : String) : Option ArcItemRec :=
  match m.find? (fun e => e.1 == i) with
  | some e => some e.2.1
  | none => none

/-- JavaScript `Map.set`: replace in place, keeping insertion order, or
append when the key is new. -/
def mapSet : MasterMap → String → ArcItemRec × Nat → MasterMap
  | [], i, v => [(i, v)]
  | e :: rest, i, v => if e.1 = i then (i, v) :: rest else e :: mapSet rest i v

/-- utils.js `addItemIfNewer`: keep the stored record unless the incoming
`lastChangeDate` is strictly greater than the stored one (default 0). -/
def addItemIfNewer (m : MasterMap) (i : String) (item : ArcItemRec)
    (lastChangeDate : Nat) : MasterMap :=
  if mapGetDate m i < lastChangeDate then mapSet m i (item, lastChangeDate) else m

/-- The loop over a wrapped item source (`syncData.items` or
`sidebar.items`): entries lacking a `value` or with a falsy `value.id`
are skipped; the timestamp defaults to 0. -/
def addSyncEntries (m : MasterMap) (entries : List SyncEntry) : MasterMap :=
  entries.foldl
    (fun acc e =>
      match e.value with
      | some v => if v.id ≠ "" then addItemIfNewer acc v.id v (e.lastChangeDate.getD 0) else acc
      | none => acc)
    m

/-- The loop over a container's `items` (current state, no wrapper): a
record with a truthy id is added with timestamp `Number.MAX_SAFE_INTEGER`. -/
def addContainerItems (m : MasterMap) (entries : List ArcItemRec) : MasterMap :=
  entries.foldl
    (fun acc v => if v.id ≠ "" then addItemIfNewer acc v.id v MAX_SAFE_INTEGER else acc)
    m

/-- The reduced item map of `parseArcJson`: `syncData.items` first, then
`sidebar.items`, then the container's current-state items. -/
def buildMasterMap (syncDataItems sidebarItems : List SyncEntry)
    (containerItems : List ArcItemRec) : MasterMap :=
  addContainerItems (addSyncEntries (addSyncEntries [] syncDataItems) sidebarItems)
    containerItems

/-- Output node of the Arc tree materialization (`buildArcNode` creates
fresh local identities via `generateId()`, which are irrelevant to the
tree shape and therefore omitted from the model). -/
inductive ArcNode : Type where
  | bookmark (name url : String)
  | folder (name : String) (expanded : Bool) (children : List ArcNode)

/-- The truthy-chain `item.title || item.data.tab.savedTitle || 'Untitled'`. -/
def firstTruthy (a b : Option String) (d : String) : String :=
  if truthyStr a then a.getD "" else if truthyStr b then b.getD "" else d

/-- utils.js `buildArcNode`: a bookmark when the record carries tab data
with a truthy `savedURL`; otherwise a folder when it has a truthy title
or a non-empty child list AND carries no tab data at all; otherwise
nothing.  The unbounded recursion of the source (which performs no cycle
protection) is modelled with an explicit depth budget. -/
def buildArcNode : Nat → ArcItemRec → MasterMap → Option ArcNode
  | 0, _, _ => none
  | fuel + 1, item, m =>
    match item.tab with
    | some tab =>
      if truthyStr tab.savedURL then
        some (.bookmark (firstTruthy item.title tab.savedTitle "Untitled")
          (tab.savedURL.getD ""))
      else none
    | none =>
      if truthyStr item.title || decide (item.childrenIds ≠ []) then
        some (.folder (if truthyStr item.title then item.title.getD "" else "Folder") true
          (item.childrenIds.filterMap fun cid =>
            (mapGetRec m cid).bind fun child => buildArcNode fuel child m))
      else none

/-- utils.js `clamp` inside `rgbToHex`: clamp a channel into [0, 1]
(`Math.max(0, Math.min(1, v))`). -/
def clamp01 (v : ℚ) : ℚ := max 0 (min 1 v)

/-- JavaScript `Math.round` on the non-negative reals: floor of x + 1/2. -/
def jsRound (x : ℚ) : ℤ := ⌊x + 1 / 2⌋

/-- One hexadecimal digit, lowercase as produced by `toString(16)`. -/
def hexDigitChar : Nat → Char
  | 0 => '0' | 1 => '1' | 2 => '2' | 3 => '3' | 4 => '4' | 5 => '5' | 6 => '6' | 7 => '7'
  | 8 => '8' | 9 => '9' | 10 => 'a' | 11 => 'b' | 12 => 'c' | 13 => 'd' | 14 => 'e'
  | _ => 'f'

/-- JavaScript `Number.prototype.toString(16)` on a natural number. -/
def natToHex (n : Nat) : String :=
  if h : n < 16 then String.singleton (hexDigitChar n)
  else
    have : n / 16 < n := Nat.div_lt_self (by omega) (by omega)
    natToHex (n / 16) ++ String.singleton (hexDigitChar (n % 16))

/-- JavaScript `padStart(2, '0')`. -/
def padStart2 (s : String) : String :=
  if s.length ≥ 2 then s
  else if s.length = 1 then "0" ++ s
  else "00"

/-- One channel of utils.js `rgbToHex`:
`Math.round(clamp(v) * 255).toString(16).padStart(2, '0')`. -/
def channelHex (v : ℚ) : String :=
  padStart2 (natToHex (jsRound (clamp01 v * 255)).toNat)

/-- utils.js `rgbToHex`. -/
def rgbToHex (r g b : ℚ) : String :=
  "#" ++ channelHex r ++ channelHex g ++ channelHex b

/-- A JSON value, the shape `JSON.stringify`/`JSON.parse` round through
in the localStorage fallback of storage.js `saveData`/`loadData` (the
chrome.storage path stores the structured value directly). -/
inductive Json : Type where
  | null
  | str (s : String)
  | num (n : Nat)
  | boolean (b : Bool)
  | arr (elements : List Json)
  | obj (fields : List (String × Json))

/-- Encode an optional Chrome binding. -/
def encodeChromeId : Option Nat → Json
  | none => .null
  | some c => .num c

/-- Decode an optional Chrome binding. -/
def decodeChromeId : Json → Option (Option Nat)
  | .null => some none
  | .num c => some (some c)
  | _ => none

mutual

/-- Serialize one item the way storage.js persists it. -/
def encodeItem : Item → Json
  | .bookmark i n u c =>
    .obj [("id", .str i), ("type", .str "bookmark"), ("name", .str n), ("url", .str u),
      ("chromeId", encodeChromeId c)]
  | .folder i n e ch c =>
    .obj [("id", .str i), ("type", .str "folder"), ("name", .str n),
      ("expanded", .boolean e), ("children", .arr (encodeItemList ch)),
      ("chromeId", encodeChromeId c)]

/-- Serialize an item array in order. -/
def encodeItemList : List Item → List Json
  | [] => []
  | it :: rest => encodeItem it :: encodeItemList rest

end

mutual

/-- Parse one serialized item back (the inverse direction of the
stringify/parse round trip on the canonical serialization). -/
def decodeItem : Json → Option Item
  | .obj [("id", .str i), ("type", .str "bookmark"), ("name", .str n), ("url", .str u),
      ("chromeId", c)] =>
    (decodeChromeId c).map (.bookmark i n u ·)
  | .obj [("id", .str i), ("type", .str "folder"), ("name", .str n),
      ("expanded", .boolean e), ("children", .arr xs), ("chromeId", c)] =>
    match decodeItems xs, decodeChromeId c with
    | some ch, some cid => some (.folder i n e ch cid)
    | _, _ => none
  | _ => none

/-- Parse a serialized item array in order. -/
def decodeItems : List Json → Option (List Item)
  | [] => some []
  | x :: xs =>
    match decodeItem x, decodeItems xs with
    | some it, some rest => some (it :: rest)
    | _, _ => none

end

/-- Serialize one box. -/
def encodeBox (b : Box) : Json :=
  .obj [("id", .str b.id), ("title", .str b.title), ("color", .str b.color),
    ("items", .arr (encodeItemList b.items)), ("chromeId", encodeChromeId b.chromeId)]

/-- Parse one serialized box. -/
def decodeBox : Json → Option Box
  | .obj [("id", .str i), ("title", .str t), ("color", .str c), ("items", .arr xs),
      ("chromeId", cid)] =>
    match decodeItems xs, decodeChromeId cid with
    | some items, some chromeId => some ⟨i, t, c, items, chromeId⟩
    | _, _ => none
  | _ => none

/-- The persisted document of storage.js:
`{ boxes, expandedSpaceId, settings: { theme } }`. -/
structure Document where
  boxes : List Box
  expandedSpaceId : Option String
  theme : String

/-- Serialize the persisted document (storage.js `saveData`). -/
def encodeDocument (d : Document) : Json :=
  .obj [("boxes", .arr (d.boxes.map encodeBox)),
    ("expandedSpaceId", match d.expandedSpaceId with | none => .null | some i => .str i),
    ("settings", .obj [("theme", .str d.theme)])]

/-- Parse a serialized box array in order. -/
def decodeBoxes : List Json → Option (List Box)
  | [] => some []
  | x :: xs =>
    match decodeBox x, decodeBoxes xs with
    | some b, some rest => some (b :: rest)
    | _, _ => none

/-- Parse the persisted document (storage.js `loadData`). -/
def decodeDocument : Json → Option Document
  | .obj [("boxes", .arr bs), ("expandedSpaceId", e), ("settings", .obj [("theme", .str th)])] =>
    match decodeBoxes bs, (match e with | .null => some none | .str i => some (some i) | _ => none) with
    | some boxes, some exp => some ⟨boxes, exp, th⟩
    | _, _ => none
  | _ => none

mutual

/-- Whether an item and its whole subtree carry no Chrome binding. -/
def itemUnbound : Item → Bool
  | .bookmark _ _ _ c => c.isNone
  | .folder _ _ _ ch c => c.isNone && itemsUnbound ch

/-- Whether a forest carries no Chrome binding anywhere. -/
def itemsUnbound : List Item → Bool
  | [] => true
  | it :: rest => itemUnbound it && itemsUnbound rest

end

mutual

/-- Number of entities in an item's subtree. -/
def itemCount : Item → Nat
  | .bookmark _ _ _ _ => 1
  | .folder _ _ _ ch _ => 1 + itemsCount ch

/-- Number of entities in a forest. -/
def itemsCount : List Item → Nat
  | [] => 0
  | it :: rest => itemCount it + itemsCount rest

end

mutual

/-- All Chrome identities bound inside an item's subtree. -/
def itemChromeIds : Item → List Nat
  | .bookmark _ _ _ c => c.toList
  | .folder _ _ _ ch c => c.toList ++ itemsChromeIds ch

/-- All Chrome identities bound inside a forest. -/
def itemsChromeIds : List Item → List Nat
  | [] => []
  | it :: rest => itemChromeIds it ++ itemsChromeIds rest

end

/-- Well-formed host store: distinct node identities, all below the
fresh-identity counter. -/
def WFStore (s : HostStore) : Prop :=
  (s.nodes.map Prod.fst).Nodup ∧ ∀ k ∈ s.nodes.map Prod.fst, k < s.nextId

mutual

/-- An item is fully mirrored in the host store: it is bound, the bound
node exists, and the node's title (and url, for bookmarks) match the
local content; recursively for a folder's children. -/
def itemSynced (s : HostStore) : Item → Prop
  | .bookmark _ name url c =>
    ∃ cid, c = some cid ∧ ∃ p, s.lookup cid = some ⟨p, name, some url⟩
  | .folder _ name _ children c =>
    (∃ cid, c = some cid ∧ ∃ p, s.lookup cid = some ⟨p, name, none⟩) ∧ itemsSynced s children

/-- A forest is fully mirrored in the host store. -/
def itemsSynced (s : HostStore) : List Item → Prop
  | [] => True
  | it :: rest => itemSynced s it ∧ itemsSynced s rest

end

/-- All Chrome identities bound in a box, the box's own first. -/
def boxChromeIds (b : Box) : List Nat :=
  b.chromeId.toList ++ itemsChromeIds b.items

/-- Store growth during a push: nodes are only appended, with fresh keys. -/
def storeExtends (s s2 : HostStore) : Prop :=
  (∃ ext, s2.nodes = s.nodes ++ ext ∧ ∀ k ∈ ext.map Prod.fst, s.nextId ≤ k)
  ∧ s.nextId ≤ s2.nextId

/-- A box fully mirrored in the host store. -/
def boxSynced (s : HostStore) (b : Box) : Prop :=
  ∃ c, b.chromeId = some c ∧ (∃ p, s.lookup c = some ⟨p, b.title, none⟩)
    ∧ itemsSynced s b.items

mutual

/-- Whether an item and its whole subtree are bound to host identities. -/
def itemBound : Item → Bool
  | .bookmark _ _ _ c => c.isSome
  | .folder _ _ _ ch c => c.isSome && itemsBound ch

/-- Whether a forest is fully bound. -/
def itemsBound : List Item → Bool
  | [] => true
  | it :: rest => itemBound it && itemsBound rest

end


theorem id_mem_itemIds (it : Item) : it.id ∈ itemIds it := by
  cases it <;> simp [itemIds, Item.id]

theorem itemsIds_append (l1 l2 : List Item) :
    itemsIds (l1 ++ l2) = itemsIds l1 ++ itemsIds l2 := by
  induction l1 with
  | nil => simp [itemsIds]
  | cons it rest ih => simp [itemsIds, ih]

theorem find_eq_none_of_not_mem (its : List Item) (i : String)
    (h : i ∉ itemsIds its) : findItemById its i = none := by
  induction its, i using findItemById.induct with
  | case1 i => simp [findItemById]
  | case2 it rest =>
    exact absurd (by rw [itemsIds]; exact List.mem_append_left _ (id_mem_itemIds it)) h
  | case3 rest i id name exp children c r hfind hne ih =>
    rw [itemsIds, itemIds] at h
    simp only [List.cons_append, List.mem_cons, List.mem_append, not_or] at h
    rw [ih h.2.1] at hfind
    exact absurd hfind (by simp)
  | case4 rest i id name exp children c hfind hne ih1 ih2 =>
    rw [itemsIds, itemIds] at h
    simp only [List.cons_append, List.mem_cons, List.mem_append, not_or] at h
    rw [findItemById, if_neg hne, hfind]
    exact ih2 h.2.2
  | case5 rest i id name url c hne ih =>
    rw [itemsIds, itemIds] at h
    simp only [List.singleton_append, List.mem_cons, not_or] at h
    rw [findItemById, if_neg hne]
    exact ih h.2

theorem findParent_eq_none_of_not_mem (its : List Item) (i : String) (p : Option Item)
    (h : i ∉ itemsIds its) : findParentById its i p = none := by
  induction its, i, p using findParentById.induct with
  | case1 i p => simp [findParentById]
  | case2 it rest p =>
    exact absurd (by rw [itemsIds]; exact List.mem_append_left _ (id_mem_itemIds it)) h
  | case3 rest i p id name exp children c hne r hsome ih =>
    rw [itemsIds, itemIds] at h
    simp only [List.cons_append, List.mem_cons, List.mem_append, not_or] at h
    rw [ih h.2.1] at hsome
    exact absurd hsome (by simp)
  | case4 rest i p id name exp children c hne hnone ih1 ih2 =>
    rw [itemsIds, itemIds] at h
    simp only [List.cons_append, List.mem_cons, List.mem_append, not_or] at h
    rw [findParentById, if_neg hne, hnone]
    exact ih2 h.2.2
  | case5 rest i p id name url c hne ih =>
    rw [itemsIds, itemIds] at h
    simp only [List.singleton_append, List.mem_cons, not_or] at h
    rw [findParentById, if_neg hne]
    exact ih h.2

theorem mem_of_find (its : List Item) (i : String) :
    ∀ r, findItemById its i = some r → i ∈ itemsIds its := by
  induction its, i using findItemById.induct with
  | case1 i => intro r h; simp [findItemById] at h
  | case2 it rest =>
    intro r h
    rw [itemsIds]
    exact List.mem_append_left _ (id_mem_itemIds it)
  | case3 rest i id name exp children c r2 hfind hne ih =>
    intro r h
    rw [itemsIds, itemIds]
    simp only [List.cons_append, List.mem_cons, List.mem_append]
    exact Or.inr (Or.inl (ih r2 hfind))
  | case4 rest i id name exp children c hfind hne ih1 ih2 =>
    intro r h
    rw [findItemById, if_neg hne, hfind] at h
    rw [itemsIds, itemIds]
    simp only [List.cons_append, List.mem_cons, List.mem_append]
    exact Or.inr (Or.inr (ih2 r h))
  | case5 rest i id name url c hne ih =>
    intro r h
    rw [findItemById, if_neg hne] at h
    rw [itemsIds, itemIds]
    simp only [List.singleton_append, List.mem_cons]
    exact Or.inr (ih r h)

theorem find_sublist (its : List Item) (i : String) :
    ∀ r, findItemById its i = some r → (itemIds r).Sublist (itemsIds its) := by
  induction its, i using findItemById.induct with
  | case1 i => intro r h; simp [findItemById] at h
  | case2 it rest =>
    intro r h
    rw [findItemById.eq_def] at h
    simp only [if_pos] at h
    cases h
    rw [itemsIds]
    exact List.sublist_append_left _ _
  | case3 rest i id name exp children c r2 hfind hne ih =>
    intro r h
    rw [findItemById, if_neg hne, hfind] at h
    cases h
    rw [itemsIds, itemIds]
    refine List.Sublist.trans (ih r2 hfind) ?_
    refine List.Sublist.trans (List.sublist_append_left _ (itemsIds rest)) ?_
    rw [List.cons_append]
    exact List.sublist_cons_self _ _
  | case4 rest i id name exp children c hfind hne ih1 ih2 =>
    intro r h
    rw [findItemById, if_neg hne, hfind] at h
    rw [itemsIds]
    exact List.Sublist.trans (ih2 r h) (List.sublist_append_right _ _)
  | case5 rest i id name url c hne ih =>
    intro r h
    rw [findItemById, if_neg hne] at h
    rw [itemsIds]
    exact List.Sublist.trans (ih r h) (List.sublist_append_right _ _)

theorem descList_mem (t : String) (its : List Item) :
    descendantInList its t = true → t ∈ itemsIds its := by
  induction its using itemsIds.induct (motive_1 := fun it => isDescendant it t = true → t ∈ itemIds it) with
  | case1 i name url c h => simp [isDescendant] at h
  | case2 i name exp children c ih h =>
    rw [isDescendant] at h
    rw [itemIds]
    exact List.mem_cons_of_mem _ (ih h)
  | case3 => intro h; simp [descendantInList] at h
  | case4 it rest ih1 ih2 =>
    intro h
    rw [descendantInList] at h
    rw [itemsIds]
    simp only [Bool.or_eq_true, beq_iff_eq] at h
    rcases h with (h | h) | h
    · subst h
      exact List.mem_append_left _ (id_mem_itemIds it)
    · exact List.mem_append_left _ (ih1 h)
    · exact List.mem_append_right _ (ih2 h)

theorem splice_none_of_not_level (its : List Item) (i : String)
    (h : ∀ it ∈ its, it.id ≠ i) : spliceById its i = none := by
  induction its with
  | nil => rfl
  | cons it rest ih =>
    rw [spliceById, if_neg (h it (by simp))]
    rw [ih (fun x hx => h x (by simp [hx]))]
    rfl

theorem splice_shape (its : List Item) (i : String) :
    ∀ l, spliceById its i = some l →
      ∃ pre it post, its = pre ++ it :: post ∧ it.id = i ∧ l = pre ++ post := by
  induction its with
  | nil => intro l h; exact Option.noConfusion h
  | cons it rest ih =>
    intro l h
    rw [spliceById] at h
    by_cases hid : it.id = i
    · rw [if_pos hid] at h
      cases h
      exact ⟨[], it, rest, by simp, hid, by simp⟩
    · rw [if_neg hid] at h
      rcases hsp : spliceById rest i with _ | l2
      · rw [hsp] at h; exact Option.noConfusion h
      · rw [hsp] at h
        simp only [Option.map_some'] at h
        cases h
        obtain ⟨pre, it2, post, heq, hid2, hl⟩ := ih l2 hsp
        exact ⟨it :: pre, it2, post, by simp [heq], hid2, by simp [hl]⟩

theorem splice_mem (its : List Item) (i : String) (l : List Item)
    (h : spliceById its i = some l) : i ∈ itemsIds its := by
  obtain ⟨pre, it, post, heq, hid, _⟩ := splice_shape its i l h
  subst heq
  rw [itemsIds_append]
  refine List.mem_append_right _ ?_
  rw [itemsIds]
  exact List.mem_append_left _ (hid ▸ id_mem_itemIds it)

theorem remove_not_mem (its : List Item) (i : String) (h : i ∉ itemsIds its) :
    removeItemById its i = (its, false) := by
  refine removeItemById.induct
    (fun its i => i ∉ itemsIds its → removeItemById its i = (its, false))
    (fun its i => i ∉ itemsIds its → removeInChildren its i = (its, false))
    ?_ ?_ ?_ ?_ ?_ ?_ its i h
  · intro its i items2 hsp h
    exact absurd (splice_mem its i items2 hsp) h
  · intro its i hsp ih h
    rw [removeItemById, hsp]
    exact ih h
  · intro i h2
    rw [removeInChildren]
  · intro rest i id name exp children c children2 hrem ih h2
    rw [itemsIds, itemIds] at h2
    simp only [List.cons_append, List.mem_cons, List.mem_append, not_or] at h2
    rw [ih h2.2.1] at hrem
    simp at hrem
  · intro rest i id name exp children c fst hrem ih1 ih2 h2
    rw [itemsIds, itemIds] at h2
    simp only [List.cons_append, List.mem_cons, List.mem_append, not_or] at h2
    rw [removeInChildren, hrem, ih2 h2.2.2]
  · intro rest i id name url c ih h2
    rw [itemsIds, itemIds] at h2
    simp only [List.singleton_append, List.mem_cons, not_or] at h2
    rw [removeInChildren, ih h2.2]

theorem splice_cons_none (it : Item) (rest : List Item) (i : String)
    (h : spliceById (it :: rest) i = none) : it.id ≠ i ∧ spliceById rest i = none := by
  rw [spliceById] at h
  by_cases hid : it.id = i
  · rw [if_pos hid] at h; exact Option.noConfusion h
  · rw [if_neg hid] at h
    refine ⟨hid, ?_⟩
    rcases hsp : spliceById rest i with _ | l2
    · rfl
    · rw [hsp] at h; exact Option.noConfusion h

theorem remove_success_of_mem (its : List Item) (i : String) (h : i ∈ itemsIds its) :
    (removeItemById its i).2 = true := by
  refine removeItemById.induct
    (fun its i => i ∈ itemsIds its → (removeItemById its i).2 = true)
    (fun its i =>
      spliceById its i = none → i ∈ itemsIds its → (removeInChildren its i).2 = true)
    ?_ ?_ ?_ ?_ ?_ ?_ its i h
  · intro its i items2 hsp h
    rw [removeItemById, hsp]
  · intro its i hsp ih h
    rw [removeItemById, hsp]
    exact ih hsp h
  · intro i hsp hmem
    simp [itemsIds] at hmem
  · intro rest i id name exp children c children2 hrem ih hsp hmem
    rw [removeInChildren, hrem]
  · intro rest i id name exp children c fst hrem ih1 ih2 hsp hmem
    obtain ⟨hid, hrsp⟩ := splice_cons_none _ _ _ hsp
    rw [itemsIds, itemIds] at hmem
    simp only [List.cons_append, List.mem_cons, List.mem_append] at hmem
    rcases hmem with hmem | hmem | hmem
    · exact absurd hmem.symm (by simpa [Item.id] using hid)
    · have hc := ih1 hmem
      rw [hrem] at hc
      simp at hc
    · rw [removeInChildren, hrem]
      simp only
      exact ih2 hrsp hmem
  · intro rest i id name url c ih hsp hmem
    obtain ⟨hid, hrsp⟩ := splice_cons_none _ _ _ hsp
    rw [itemsIds, itemIds] at hmem
    simp only [List.singleton_append, List.mem_cons] at hmem
    rcases hmem with hmem | hmem
    · exact absurd hmem.symm (by simpa [Item.id] using hid)
    · rw [removeInChildren]
      simp only
      exact ih hrsp hmem

theorem remove_mem (its : List Item) (i : String) (h : (removeItemById its i).2 = true) :
    i ∈ itemsIds its := by
  refine removeItemById.induct
    (fun its i => (removeItemById its i).2 = true → i ∈ itemsIds its)
    (fun its i => (removeInChildren its i).2 = true → i ∈ itemsIds its)
    ?_ ?_ ?_ ?_ ?_ ?_ its i h
  · intro its i items2 hsp h
    exact splice_mem its i items2 hsp
  · intro its i hsp ih h
    rw [removeItemById, hsp] at h
    exact ih h
  · intro i hsucc
    rw [removeInChildren] at hsucc
    simp at hsucc
  · intro rest i id name exp children c children2 hrem ih hsucc
    have hmem := ih (by rw [hrem])
    rw [itemsIds, itemIds]
    simp only [List.cons_append, List.mem_cons, List.mem_append]
    exact Or.inr (Or.inl hmem)
  · intro rest i id name exp children c fst hrem ih1 ih2 hsucc
    rw [removeInChildren, hrem] at hsucc
    simp only at hsucc
    rw [itemsIds, itemIds]
    simp only [List.cons_append, List.mem_cons, List.mem_append]
    exact Or.inr (Or.inr (ih2 hsucc))
  · intro rest i id name url c ih hsucc
    rw [removeInChildren] at hsucc
    simp only at hsucc
    rw [itemsIds, itemIds]
    simp only [List.singleton_append, List.mem_cons]
    exact Or.inr (ih hsucc)

theorem remove_gone (its : List Item) (i : String) (hnd : (itemsIds its).Nodup) :
    i ∉ itemsIds (removeItemById its i).1 := by
  refine removeItemById.induct
    (fun its i => (itemsIds its).Nodup → i ∉ itemsIds (removeItemById its i).1)
    (fun its i =>
      spliceById its i = none → (itemsIds its).Nodup →
        i ∉ itemsIds (removeInChildren its i).1)
    ?_ ?_ ?_ ?_ ?_ ?_ its i hnd
  · intro its i items2 hsp hnd
    obtain ⟨pre, it, post, heq, hid, hl⟩ := splice_shape its i items2 hsp
    subst heq hl
    rw [removeItemById, hsp]
    simp only
    rw [itemsIds_append] at hnd ⊢
    rw [itemsIds] at hnd
    have hi : i ∈ itemIds it := hid ▸ id_mem_itemIds it
    rw [List.nodup_append] at hnd
    obtain ⟨hnd1, hnd2, hdisj⟩ := hnd
    rw [List.nodup_append] at hnd2
    obtain ⟨hndit, hndpost, hdisj2⟩ := hnd2
    simp only [List.mem_append, not_or]
    constructor
    · intro hip
      exact hdisj hip (List.mem_append_left _ hi)
    · intro hip
      exact hdisj2 hi hip
  · intro its i hsp ih hnd
    rw [removeItemById, hsp]
    exact ih hsp hnd
  · intro i hsp hnd2
    rw [removeInChildren]
    simp [itemsIds]
  · intro rest i id name exp children c children2 hrem ih hsp hnd2
    have hmemc : i ∈ itemsIds children := remove_mem children i (by rw [hrem])
    rw [itemsIds, itemIds] at hnd2
    rw [List.cons_append, List.nodup_cons, List.nodup_append] at hnd2
    obtain ⟨hidnot, hndc, hndr, hdisj⟩ := hnd2
    have ihc := ih hndc
    rw [hrem] at ihc
    simp only at ihc
    rw [removeInChildren, hrem]
    rw [itemsIds, itemIds]
    simp only [List.cons_append, List.mem_cons, List.mem_append, not_or]
    refine ⟨?_, ihc, ?_⟩
    · intro hieq
      exact hidnot (hieq ▸ List.mem_append_left _ hmemc)
    · intro hir
      exact hdisj hmemc hir
  · intro rest i id name exp children c fst hrem ih1 ih2 hsp hnd2
    obtain ⟨hid, hrsp⟩ := splice_cons_none _ _ _ hsp
    have hnc : i ∉ itemsIds children := by
      intro hmem
      have := remove_success_of_mem children i hmem
      rw [hrem] at this
      simp at this
    rw [itemsIds, itemIds] at hnd2
    rw [List.cons_append, List.nodup_cons, List.nodup_append] at hnd2
    obtain ⟨hidnot, hndc, hndr, hdisj⟩ := hnd2
    rw [removeInChildren, hrem]
    simp only
    rw [itemsIds, itemIds]
    simp only [List.cons_append, List.mem_cons, List.mem_append, not_or]
    refine ⟨?_, hnc, ih2 hrsp hndr⟩
    · intro hieq
      exact hid (by simp [Item.id, hieq])
  · intro rest i id name url c ih hsp hnd2
    obtain ⟨hid, hrsp⟩ := splice_cons_none _ _ _ hsp
    rw [itemsIds, itemIds] at hnd2
    rw [List.singleton_append, List.nodup_cons] at hnd2
    rw [removeInChildren]
    simp only
    rw [itemsIds, itemIds]
    simp only [List.singleton_append, List.mem_cons, not_or]
    refine ⟨?_, ih hrsp hnd2.2⟩
    · intro hieq
      exact hid (by simp [Item.id, hieq])

theorem find_id (its : List Item) (i : String) :
    ∀ r, findItemById its i = some r → r.id = i := by
  induction its, i using findItemById.induct with
  | case1 i => intro r h; simp [findItemById] at h
  | case2 it rest =>
    intro r h
    rw [findItemById.eq_def] at h
    simp only [if_pos] at h
    cases h
    rfl
  | case3 rest i id name exp children c r2 hfind hne ih =>
    intro r h
    rw [findItemById, if_neg hne, hfind] at h
    cases h
    exact ih r2 hfind
  | case4 rest i id name exp children c hfind hne ih1 ih2 =>
    intro r h
    rw [findItemById, if_neg hne, hfind] at h
    exact ih2 r h
  | case5 rest i id name url c hne ih =>
    intro r h
    rw [findItemById, if_neg hne] at h
    exact ih r h

theorem isDescendant_mem (it : Item) (t : String) (h : isDescendant it t = true) :
    t ∈ itemIds it := by
  cases it with
  | bookmark id name url c => rw [isDescendant] at h; simp at h
  | folder id name exp children c =>
    rw [isDescendant] at h
    rw [itemIds]
    exact List.mem_cons_of_mem _ (descList_mem t children h)

theorem guard_false_of_nodup (it : Item) (hnd : (itemIds it).Nodup) :
    ¬(it.isFolder = true ∧ isDescendant it it.id = true) := by
  rintro ⟨-, hdesc⟩
  cases it with
  | bookmark id name url c => rw [isDescendant] at hdesc; simp at hdesc
  | folder id name exp children c =>
    rw [isDescendant] at hdesc
    have : (Item.folder id name exp children c).id ∈ itemsIds children :=
      descList_mem _ children hdesc
    rw [itemIds] at hnd
    rw [List.nodup_cons] at hnd
    exact hnd.1 (by simpa [Item.id] using this)

theorem level_id_mem (its : List Item) (x : Item) (hx : x ∈ its) :
    x.id ∈ itemsIds its := by
  induction its with
  | nil => simp at hx
  | cons it rest ih =>
    rw [itemsIds]
    rcases List.mem_cons.mp hx with heq | hx2
    · subst heq
      exact List.mem_append_left _ (id_mem_itemIds x)
    · exact List.mem_append_right _ (ih hx2)

theorem findBox_singleton (b : Box) : findBox [b] b.id = some b := by
  simp [findBox]

theorem updateBox_singleton (b : Box) (f : Box → Box) : updateBox [b] b.id f = [f b] := by
  rw [updateBox, if_pos rfl]

theorem findIdx_none_of_gone (l : List Item) (i : String)
    (h : ∀ x ∈ l, x.id ≠ i) :
    List.findIdx? (fun it2 => it2.id == i) l = none := by
  rw [List.findIdx?_eq_none_iff]
  intro x hx
  simpa using h x hx


theorem find_cons_self (it : Item) (rest : List Item) :
    findItemById (it :: rest) it.id = some it := by
  rw [findItemById.eq_def]
  simp only [if_pos]

theorem find_cons_not_mem (it : Item) (rest : List Item) (i : String)
    (h : i ∉ itemIds it) : findItemById (it :: rest) i = findItemById rest i := by
  have hne : it.id ≠ i := fun heq => h (heq ▸ id_mem_itemIds it)
  cases it with
  | bookmark id name url c => rw [findItemById, if_neg hne]
  | folder id name exp children c =>
    rw [findItemById, if_neg hne]
    rw [find_eq_none_of_not_mem children i (fun hmem => h (by rw [itemIds]; exact List.mem_cons_of_mem _ hmem))]

theorem findParent_cons_self (it : Item) (rest : List Item) (p : Option Item) :
    findParentById (it :: rest) it.id p = some p := by
  rw [findParentById.eq_def]
  simp only [if_pos]

theorem findParent_cons_not_mem (it : Item) (rest : List Item) (i : String) (p : Option Item)
    (h : i ∉ itemIds it) : findParentById (it :: rest) i p = findParentById rest i p := by
  have hne : it.id ≠ i := fun heq => h (heq ▸ id_mem_itemIds it)
  cases it with
  | bookmark id name url c => rw [findParentById, if_neg hne]
  | folder id name exp children c =>
    rw [findParentById, if_neg hne]
    rw [findParent_eq_none_of_not_mem children i _
      (fun hmem => h (by rw [itemIds]; exact List.mem_cons_of_mem _ hmem))]

theorem splice_cons_self (it : Item) (rest : List Item) :
    spliceById (it :: rest) it.id = some rest := by
  rw [spliceById, if_pos rfl]

theorem splice_cons_ne (it : Item) (rest : List Item) (i : String) (h : it.id ≠ i) :
    spliceById (it :: rest) i = (spliceById rest i).map (it :: ·) := by
  rw [spliceById, if_neg h]

theorem isDescendant_false_of_not_mem (it : Item) (t : String) (h : t ∉ itemIds it) :
    isDescendant it t = false := by
  rcases hd : isDescendant it t with _ | _
  · rfl
  · exact absurd (isDescendant_mem it t hd) h

theorem updateBox_cons_hit (b : Box) (i : String) (f : Box → Box) (h : b.id = i) :
    updateBox [b] i f = [f b] := by
  rw [updateBox, if_pos h]

theorem reorder_C_before_A (bx : Box) (A B C : Item)
    (hitems : bx.items = [A, B, C]) (hnd : (itemsIds bx.items).Nodup) :
    onReorderItem [bx] bx.id C.id bx.id A.id "before" = [{ bx with items := [C, A, B] }] := by
  have hnd3 : (itemIds A ++ (itemIds B ++ itemIds C)).Nodup := by
    have := hitems ▸ hnd
    simpa [itemsIds] using this
  obtain ⟨ndA, ndBC, disjA⟩ := List.nodup_append.mp hnd3
  obtain ⟨ndB, ndC, disjB⟩ := List.nodup_append.mp ndBC
  have hCA : C.id ∉ itemIds A := fun h => disjA h (List.mem_append_right _ (id_mem_itemIds C))
  have hCB : C.id ∉ itemIds B := fun h => disjB h (id_mem_itemIds C)
  have hAC : A.id ∉ itemIds C := fun h => disjA (id_mem_itemIds A) (List.mem_append_right _ h)
  have hACne : A.id ≠ C.id := fun heq => hCA (heq ▸ id_mem_itemIds A)
  have hBCne : B.id ≠ C.id := fun heq => hCB (heq ▸ id_mem_itemIds B)
  have hfindC : findItemById bx.items C.id = some C := by
    rw [hitems, find_cons_not_mem A _ _ hCA, find_cons_not_mem B _ _ hCB]
    exact find_cons_self C []
  have hfindA : findItemById bx.items A.id = some A := by
    rw [hitems]
    exact find_cons_self A [B, C]
  have hpar : findParentById bx.items A.id none = some none := by
    rw [hitems]
    exact findParent_cons_self A [B, C] none
  have hguard : ¬(C.isFolder = true ∧ isDescendant C A.id = true) := by
    rintro ⟨-, hdesc⟩
    rw [isDescendant_false_of_not_mem C A.id hAC] at hdesc
    exact absurd hdesc (by simp)
  have hrem : removeItemById bx.items C.id = ([A, B], true) := by
    rw [hitems, removeItemById]
    rw [splice_cons_ne A _ _ hACne, splice_cons_ne B _ _ hBCne, splice_cons_self C []]
    simp only [Option.map_some']
  rw [onReorderItem, findBox_singleton bx]
  dsimp only
  rw [hfindC, hfindA]
  dsimp only
  rw [hpar]
  rw [if_neg hguard]
  have hupd : updateBox [bx] bx.id
      (fun b => { b with items := (removeItemById b.items C.id).1 })
      = [{ bx with items := [A, B] }] := by
    rw [updateBox_singleton]
    simp only [hrem]
  rw [hupd]
  have hfb1 : findBox [({ bx with items := [A, B] } : Box)] bx.id
      = some { bx with items := [A, B] } := by simp [findBox]
  rw [hfb1]
  dsimp only
  have hidx : List.findIdx? (fun it2 => it2.id == A.id) [A, B] = some 0 := by
    rw [List.findIdx?_cons]
    simp
  rw [hidx]
  dsimp only
  rw [if_neg (by decide : ¬("before" : String) = "after")]
  dsimp only [List.take, List.drop]
  rw [updateBox_cons_hit _ _ _ rfl]
  simp

theorem reorder_A_before_C (bx : Box) (A B C : Item)
    (hitems : bx.items = [A, B, C]) (hnd : (itemsIds bx.items).Nodup) :
    onReorderItem [bx] bx.id A.id bx.id C.id "before" = [{ bx with items := [B, A, C] }] := by
  have hnd3 : (itemIds A ++ (itemIds B ++ itemIds C)).Nodup := by
    have := hitems ▸ hnd
    simpa [itemsIds] using this
  obtain ⟨ndA, ndBC, disjA⟩ := List.nodup_append.mp hnd3
  obtain ⟨ndB, ndC, disjB⟩ := List.nodup_append.mp ndBC
  have hCA : C.id ∉ itemIds A := fun h => disjA h (List.mem_append_right _ (id_mem_itemIds C))
  have hCB : C.id ∉ itemIds B := fun h => disjB h (id_mem_itemIds C)
  have hBCne : B.id ≠ C.id := fun heq => hCB (heq ▸ id_mem_itemIds B)
  have hfindC : findItemById bx.items C.id = some C := by
    rw [hitems, find_cons_not_mem A _ _ hCA, find_cons_not_mem B _ _ hCB]
    exact find_cons_self C []
  have hfindA : findItemById bx.items A.id = some A := by
    rw [hitems]
    exact find_cons_self A [B, C]
  have hpar : findParentById bx.items C.id none = some none := by
    rw [hitems, findParent_cons_not_mem A _ _ _ hCA, findParent_cons_not_mem B _ _ _ hCB]
    exact findParent_cons_self C [] none
  have hguard : ¬(A.isFolder = true ∧ isDescendant A C.id = true) := by
    rintro ⟨-, hdesc⟩
    rw [isDescendant_false_of_not_mem A C.id hCA] at hdesc
    exact absurd hdesc (by simp)
  have hrem : removeItemById bx.items A.id = ([B, C], true) := by
    rw [hitems, removeItemById, splice_cons_self A [B, C]]
  rw [onReorderItem, findBox_singleton bx]
  dsimp only
  rw [hfindA, hfindC]
  dsimp only
  rw [hpar]
  rw [if_neg hguard]
  have hupd : updateBox [bx] bx.id
      (fun b => { b with items := (removeItemById b.items A.id).1 })
      = [{ bx with items := [B, C] }] := by
    rw [updateBox_singleton]
    simp only [hrem]
  rw [hupd]
  have hfb1 : findBox [({ bx with items := [B, C] } : Box)] bx.id
      = some { bx with items := [B, C] } := by simp [findBox]
  rw [hfb1]
  dsimp only
  have hidx : List.findIdx? (fun it2 => it2.id == C.id) [B, C] = some 1 := by
    rw [List.findIdx?_cons]
    rw [if_neg (by simpa using hBCne)]
    rw [List.findIdx?_cons]
    simp
  rw [hidx]
  dsimp only
  rw [if_neg (by decide : ¬("before" : String) = "after")]
  rw [updateBox_cons_hit _ _ _ rfl]
  simp

theorem decodeChromeId_encode (c : Option Nat) : decodeChromeId (encodeChromeId c) = some c := by
  cases c <;> rfl

theorem decode_encode_item (it0 : Item) : decodeItem (encodeItem it0) = some it0 := by
  induction it0 using itemIds.induct
    (motive_2 := fun its => decodeItems (encodeItemList its) = some its) with
  | case1 i name url c =>
    rw [encodeItem, decodeItem]
    rw [decodeChromeId_encode]
    rfl
  | case2 i name exp children c ih =>
    rw [encodeItem, decodeItem]
    rw [ih, decodeChromeId_encode]
  | case3 => rw [encodeItemList, decodeItems]
  | case4 it rest ih1 ih2 =>
    rw [encodeItemList, decodeItems, ih1, ih2]

theorem decode_encode_items (its : List Item) : decodeItems (encodeItemList its) = some its := by
  induction its with
  | nil => rw [encodeItemList, decodeItems]
  | cons it rest ih => rw [encodeItemList, decodeItems, decode_encode_item, ih]

theorem decode_encode_box (b : Box) : decodeBox (encodeBox b) = some b := by
  rw [encodeBox, decodeBox, decode_encode_items, decodeChromeId_encode]

theorem decode_encode_boxes (bs : List Box) : decodeBoxes (bs.map encodeBox) = some bs := by
  induction bs with
  | nil => rfl
  | cons b rest ih => rw [List.map_cons, decodeBoxes, decode_encode_box, ih]

theorem decode_encode_document (d : Document) :
    decodeDocument (encodeDocument d) = some d := by
  rcases d with ⟨bs, e, th⟩
  cases e <;>
    simp [encodeDocument, decodeDocument, decode_encode_boxes]


theorem storeExtends_refl (s : HostStore) : storeExtends s s :=
  ⟨⟨[], by simp, by simp⟩, le_refl _⟩

theorem storeExtends_trans {s1 s2 s3 : HostStore}
    (h12 : storeExtends s1 s2) (h23 : storeExtends s2 s3) : storeExtends s1 s3 := by
  obtain ⟨⟨e1, he1, hk1⟩, hn1⟩ := h12
  obtain ⟨⟨e2, he2, hk2⟩, hn2⟩ := h23
  refine ⟨⟨e1 ++ e2, by rw [he2, he1, List.append_assoc], ?_⟩, le_trans hn1 hn2⟩
  intro k hk
  rw [List.map_append, List.mem_append] at hk
  rcases hk with hk | hk
  · exact hk1 k hk
  · exact le_trans hn1 (hk2 k hk)

theorem lookup_extends_some {s s2 : HostStore} (h : storeExtends s s2) {c : Nat}
    {n : HostNode} (hl : s.lookup c = some n) : s2.lookup c = some n := by
  obtain ⟨⟨ext, he, -⟩, -⟩ := h
  rw [HostStore.lookup] at hl ⊢
  rw [he, List.find?_append]
  rcases hf : List.find? (fun p => p.1 == c) s.nodes with _ | v
  · rw [hf] at hl; exact Option.noConfusion hl
  · rw [hf] at hl
    rw [hf]
    exact hl

theorem itemSynced_mono {s s2 : HostStore} (h : storeExtends s s2) (it : Item)
    (hs : itemSynced s it) : itemSynced s2 it := by
  induction it using itemIds.induct
    (motive_2 := fun its => itemsSynced s its → itemsSynced s2 its) with
  | case1 i name url c =>
    rw [itemSynced] at hs ⊢
    obtain ⟨cid, hc, p, hl⟩ := hs
    exact ⟨cid, hc, p, lookup_extends_some h hl⟩
  | case2 i name exp children c ih =>
    rw [itemSynced] at hs ⊢
    obtain ⟨⟨cid, hc, p, hl⟩, hch⟩ := hs
    exact ⟨⟨cid, hc, p, lookup_extends_some h hl⟩, ih hch⟩
  | case3 h2 => exact h2
  | case4 it rest ih1 ih2 h2 =>
    rw [itemsSynced] at h2 ⊢
    exact ⟨ih1 h2.1, ih2 h2.2⟩

theorem itemsSynced_mono {s s2 : HostStore} (h : storeExtends s s2) (its : List Item)
    (hs : itemsSynced s its) : itemsSynced s2 its := by
  induction its with
  | nil => rw [itemsSynced]; trivial
  | cons it rest ih =>
    rw [itemsSynced] at hs ⊢
    exact ⟨itemSynced_mono h it hs.1, ih hs.2⟩

theorem find?_eq_of_mem_nodup (l : List (Nat × HostNode)) (c : Nat) (v : HostNode)
    (hnd : (l.map Prod.fst).Nodup) (hmem : (c, v) ∈ l) :
    List.find? (fun p => p.1 == c) l = some (c, v) := by
  induction l with
  | nil => simp at hmem
  | cons e rest ih =>
    rw [List.map_cons, List.nodup_cons] at hnd
    rcases List.mem_cons.mp hmem with heq | hmem2
    · subst heq
      rw [List.find?_cons_of_pos _ (by simp)]
    · have hne : e.1 ≠ c := by
        intro heq
        exact hnd.1 (heq ▸ (List.mem_map.mpr ⟨(c, v), hmem2, rfl⟩))
      rw [List.find?_cons_of_neg _ (by simpa using hne)]
      exact ih hnd.2 hmem2

theorem find?_none_of_keys_lt (l : List (Nat × HostNode)) (m : Nat)
    (h : ∀ k ∈ l.map Prod.fst, k < m) :
    List.find? (fun p => p.1 == m) l = none := by
  rw [List.find?_eq_none]
  intro p hp
  simp only [beq_iff_eq]
  exact Nat.ne_of_lt (h p.1 (List.mem_map.mpr ⟨p, hp, rfl⟩))

theorem create_WF (s : HostStore) (p : Nat) (t : String) (u : Option String)
    (hwf : WFStore s) : WFStore (s.create p t u).2 := by
  obtain ⟨hnd, hlt⟩ := hwf
  constructor
  · rw [HostStore.create]
    simp only [List.map_append, List.map_cons, List.map_nil]
    rw [List.nodup_append]
    refine ⟨hnd, List.nodup_singleton _, ?_⟩
    intro k hk
    simp only [List.mem_singleton]
    exact fun heq => absurd (heq ▸ hlt k hk) (lt_irrefl _)
  · rw [HostStore.create]
    simp only [List.map_append, List.map_cons, List.map_nil]
    intro k hk
    rw [List.mem_append] at hk
    rcases hk with hk | hk
    · exact Nat.lt_succ_of_lt (hlt k hk)
    · simp at hk
      omega

theorem create_lookup (s : HostStore) (p : Nat) (t : String) (u : Option String)
    (hwf : WFStore s) : (s.create p t u).2.lookup s.nextId = some ⟨p, t, u⟩ := by
  rw [HostStore.create, HostStore.lookup]
  simp only
  rw [List.find?_append, find?_none_of_keys_lt s.nodes s.nextId hwf.2]
  rw [List.find?_cons_of_pos _ (by simp)]
  rfl

theorem create_extends (s : HostStore) (p : Nat) (t : String) (u : Option String) :
    storeExtends s (s.create p t u).2 := by
  refine ⟨⟨[(s.nextId, ⟨p, t, u⟩)], rfl, ?_⟩, ?_⟩
  · intro k hk
    simp at hk
    omega
  · exact Nat.le_succ _

theorem list_map_eq_self {α : Type} (l : List α) (f : α → α) (h : ∀ x ∈ l, f x = x) :
    l.map f = l := by
  induction l with
  | nil => rfl
  | cons a rest ih =>
    rw [List.map_cons, h a (by simp), ih (fun x hx => h x (by simp [hx]))]

theorem updateTitle_eq_self (s : HostStore) (c : Nat) (t : String) (n : HostNode)
    (hwf : WFStore s) (hl : s.lookup c = some n) (ht : n.title = t) :
    s.updateTitle c t = s := by
  rw [HostStore.updateTitle]
  have : s.nodes.map (fun p => if p.1 == c then (p.1, ⟨p.2.parentId, t, p.2.url⟩) else p)
      = s.nodes := by
    apply list_map_eq_self
    intro p hp
    rcases p with ⟨k, pn⟩
    by_cases hpc : k = c
    · subst hpc
      have hfind := find?_eq_of_mem_nodup s.nodes k pn hwf.1 hp
      rw [HostStore.lookup, hfind] at hl
      simp only [Option.map_some'] at hl
      cases hl
      rw [if_pos (by simp)]
      rcases n with ⟨pp, tt, uu⟩
      simp only at ht
      rw [ht]
    · rw [if_neg (by simpa using hpc)]
  rw [this]

theorem updateTitleUrl_eq_self (s : HostStore) (c : Nat) (t u : String) (n : HostNode)
    (hwf : WFStore s) (hl : s.lookup c = some n) (ht : n.title = t) (hu : n.url = some u) :
    s.updateTitleUrl c t u = s := by
  rw [HostStore.updateTitleUrl]
  have : s.nodes.map (fun p => if p.1 == c then (p.1, ⟨p.2.parentId, t, some u⟩) else p)
      = s.nodes := by
    apply list_map_eq_self
    intro p hp
    rcases p with ⟨k, pn⟩
    by_cases hpc : k = c
    · subst hpc
      have hfind := find?_eq_of_mem_nodup s.nodes k pn hwf.1 hp
      rw [HostStore.lookup, hfind] at hl
      simp only [Option.map_some'] at hl
      cases hl
      rw [if_pos (by simp)]
      rcases n with ⟨pp, tt, uu⟩
      simp only at ht hu
      rw [ht, hu]
    · rw [if_neg (by simpa using hpc)]
  rw [this]

theorem syncItems_nil (parent : Nat) (s : HostStore) (flag : Bool) :
    syncItemsToChrome [] parent s flag = ⟨[], s, []⟩ := by
  rw [syncItemsToChrome]

theorem syncItems_cons_folder_unbound (id name : String) (exp : Bool)
    (children rest : List Item) (parent : Nat) (s : HostStore) (flag : Bool) :
    syncItemsToChrome (.folder id name exp children none :: rest) parent s flag =
      ⟨.folder id name exp
          (syncItemsToChrome children s.nextId (s.create parent name none).2 flag).items
          (some s.nextId)
        :: (syncItemsToChrome rest parent
            (syncItemsToChrome children s.nextId (s.create parent name none).2 flag).store
            flag).items,
        (syncItemsToChrome rest parent
          (syncItemsToChrome children s.nextId (s.create parent name none).2 flag).store
          flag).store,
        [(flag, HostOp.create parent name none)]
          ++ (syncItemsToChrome children s.nextId (s.create parent name none).2 flag).trace
          ++ (syncItemsToChrome rest parent
              (syncItemsToChrome children s.nextId (s.create parent name none).2 flag).store
              flag).trace⟩ := by
  rw [syncItemsToChrome]
  rfl

theorem syncItems_cons_bookmark_unbound (id name url : String)
    (rest : List Item) (parent : Nat) (s : HostStore) (flag : Bool) :
    syncItemsToChrome (.bookmark id name url none :: rest) parent s flag =
      ⟨.bookmark id name url (some s.nextId)
        :: (syncItemsToChrome rest parent (s.create parent name (some url)).2 flag).items,
        (syncItemsToChrome rest parent (s.create parent name (some url)).2 flag).store,
        [(flag, HostOp.create parent name (some url))]
          ++ (syncItemsToChrome rest parent (s.create parent name (some url)).2 flag).trace⟩ := by
  rw [syncItemsToChrome]
  rfl

theorem create_nextId (s : HostStore) (p : Nat) (t : String) (u : Option String) :
    (s.create p t u).2.nextId = s.nextId + 1 := rfl

theorem create_length (s : HostStore) (p : Nat) (t : String) (u : Option String) :
    (s.create p t u).2.nodes.length = s.nodes.length + 1 := by
  rw [HostStore.create]
  simp

theorem syncItems_establish :
    ∀ (its : List Item) (parent : Nat) (s : HostStore) (flag : Bool),
      WFStore s → itemsUnbound its = true →
      itemsSynced (syncItemsToChrome its parent s flag).store
          (syncItemsToChrome its parent s flag).items
      ∧ WFStore (syncItemsToChrome its parent s flag).store
      ∧ storeExtends s (syncItemsToChrome its parent s flag).store
      ∧ (syncItemsToChrome its parent s flag).store.nextId = s.nextId + itemsCount its
      ∧ (syncItemsToChrome its parent s flag).store.nodes.length
          = s.nodes.length + itemsCount its
      ∧ (∀ c ∈ itemsChromeIds (syncItemsToChrome its parent s flag).items,
          s.nextId ≤ c ∧ c < (syncItemsToChrome its parent s flag).store.nextId)
      ∧ (itemsChromeIds (syncItemsToChrome its parent s flag).items).Nodup := by
  intro its parent s flag
  induction its, parent, s, flag using syncItemsToChrome.induct with
  | case1 parent s flag =>
    intro hwf hub
    rw [syncItems_nil]
    refine ⟨trivial, hwf, storeExtends_refl s, by simp [itemsCount], by simp [itemsCount],
      ?_, ?_⟩
    · intro c hc
      simp [itemsChromeIds] at hc
    · simp [itemsChromeIds]
  | case2 parent s flag rest id name exp children cid0 v step rc ih1 ih1x ih2 =>
    intro hwf hub
    rw [itemsUnbound, Bool.and_eq_true] at hub
    obtain ⟨hu1, hurest⟩ := hub
    rw [itemUnbound, Bool.and_eq_true, Option.isNone_iff_eq_none] at hu1
    obtain ⟨hcid, hch⟩ := hu1
    subst hcid
    clear ih1
    simp only [verifyChromeId] at ih1x ih2
    rw [syncItems_cons_folder_unbound]
    dsimp only
    set s2 := (s.create parent name none).2 with hs2
    have hfst : (HostStore.create s parent name none).1 = s.nextId := rfl
    rw [hfst] at ih1x
    have hrc2 : rc.store = (syncItemsToChrome children s.nextId s2 flag).store := rfl
    rw [hrc2] at ih2
    have hwf2 : WFStore s2 := create_WF s parent name none hwf
    have hext2 : storeExtends s s2 := create_extends s parent name none
    have hlk2 : s2.lookup s.nextId = some ⟨parent, name, none⟩ :=
      create_lookup s parent name none hwf
    obtain ⟨sy_ch, wf_rc, ext_rc, nid_rc, len_rc, rng_ch, nd_ch⟩ := ih1x hwf2 hch
    obtain ⟨sy_rest, wf_rr, ext_rr, nid_rr, len_rr, rng_rest, nd_rest⟩ := ih2 wf_rc hurest
    set rcv := syncItemsToChrome children s.nextId s2 flag with hrcv
    set rrv := syncItemsToChrome rest parent rcv.store flag with hrrv
    have hextfull : storeExtends s rrv.store :=
      storeExtends_trans hext2 (storeExtends_trans ext_rc ext_rr)
    have hnid2 : s2.nextId = s.nextId + 1 := create_nextId s parent name none
    refine ⟨?_, wf_rr, hextfull, ?_, ?_, ?_, ?_⟩
    · rw [itemsSynced]
      refine ⟨?_, sy_rest⟩
      rw [itemSynced]
      refine ⟨⟨s.nextId, rfl, parent,
        lookup_extends_some (storeExtends_trans ext_rc ext_rr) hlk2⟩, ?_⟩
      exact itemsSynced_mono ext_rr _ sy_ch
    · rw [nid_rr, nid_rc, hnid2, itemsCount, itemCount]
      omega
    · rw [len_rr, len_rc, create_length, itemsCount, itemCount]
      omega
    · intro c hc
      rw [itemsChromeIds, itemChromeIds] at hc
      simp only [Option.toList_some, List.cons_append, List.nil_append, List.mem_cons,
        List.mem_append] at hc
      rcases hc with hc | hc | hc
      · subst hc
        refine ⟨le_refl _, ?_⟩
        rw [nid_rr, nid_rc, hnid2]
        omega
      · have := rng_ch c hc
        rw [hnid2] at this
        rw [nid_rr]
        exact ⟨by omega, by omega⟩
      · have := rng_rest c hc
        rw [nid_rc, hnid2] at this
        rw [nid_rr, nid_rc, hnid2]
        exact ⟨by omega, by omega⟩
    · rw [itemsChromeIds, itemChromeIds]
      simp only [Option.toList_some, List.cons_append, List.nil_append]
      rw [List.nodup_cons, List.nodup_append]
      refine ⟨?_, nd_ch, nd_rest, ?_⟩
      · intro hmem
        rw [List.mem_append] at hmem
        rcases hmem with hmem | hmem
        · have := rng_ch _ hmem
          rw [hnid2] at this
          omega
        · have := rng_rest _ hmem
          rw [nid_rc, hnid2] at this
          omega
      · intro a ha hb
        have h1 := rng_ch a ha
        have h2 := rng_rest a hb
        rw [nid_rc] at h2
        omega
  | case3 parent s flag rest id name url cid0 v step ih =>
    intro hwf hub
    rw [itemsUnbound, Bool.and_eq_true] at hub
    obtain ⟨hu1, hurest⟩ := hub
    rw [itemUnbound, Option.isNone_iff_eq_none] at hu1
    subst hu1
    have hstep : step.2.1 = (s.create parent name (some url)).2 := rfl
    rw [hstep] at ih
    rw [syncItems_cons_bookmark_unbound]
    dsimp only
    set s2 := (s.create parent name (some url)).2 with hs2
    have hwf2 : WFStore s2 := create_WF s parent name (some url) hwf
    have hext2 : storeExtends s s2 := create_extends s parent name (some url)
    have hlk2 : s2.lookup s.nextId = some ⟨parent, name, some url⟩ :=
      create_lookup s parent name (some url) hwf
    obtain ⟨sy_rest, wf_rr, ext_rr, nid_rr, len_rr, rng_rest, nd_rest⟩ := ih hwf2 hurest
    set rrv := syncItemsToChrome rest parent s2 flag with hrrv
    have hnid2 : s2.nextId = s.nextId + 1 := create_nextId s parent name (some url)
    refine ⟨?_, wf_rr, storeExtends_trans hext2 ext_rr, ?_, ?_, ?_, ?_⟩
    · rw [itemsSynced]
      refine ⟨?_, sy_rest⟩
      rw [itemSynced]
      exact ⟨s.nextId, rfl, parent, lookup_extends_some ext_rr hlk2⟩
    · rw [nid_rr, hnid2, itemsCount, itemCount]
      omega
    · rw [len_rr, create_length, itemsCount, itemCount]
      omega
    · intro c hc
      rw [itemsChromeIds, itemChromeIds] at hc
      simp only [Option.toList_some, List.singleton_append, List.mem_cons] at hc
      rcases hc with hc | hc
      · subst hc
        refine ⟨le_refl _, ?_⟩
        rw [nid_rr, hnid2]
        omega
      · have := rng_rest c hc
        rw [hnid2] at this
        exact ⟨by omega, by omega⟩
    · rw [itemsChromeIds, itemChromeIds]
      simp only [Option.toList_some, List.singleton_append]
      rw [List.nodup_cons]
      refine ⟨?_, nd_rest⟩
      intro hmem
      have := rng_rest _ hmem
      rw [hnid2] at this
      omega

theorem verify_bound (s : HostStore) (c : Nat) (flag : Bool)
    (hlk : (s.lookup c).isSome = true) :
    verifyChromeId s (some c) flag = (some c, [(flag, HostOp.get c)]) := by
  rw [verifyChromeId, if_pos hlk]

theorem syncItems_noop :
    ∀ (its : List Item) (parent : Nat) (s : HostStore) (flag : Bool),
      WFStore s → itemsSynced s its →
      (syncItemsToChrome its parent s flag).items = its
      ∧ (syncItemsToChrome its parent s flag).store = s
      ∧ (syncItemsToChrome its parent s flag).trace.all (fun p => !p.2.isCreate) = true := by
  intro its parent s flag
  induction its, parent, s, flag using syncItemsToChrome.induct with
  | case1 parent s flag =>
    intro hwf hsy
    rw [syncItems_nil]
    exact ⟨rfl, rfl, rfl⟩
  | case2 parent s flag rest id name exp children cid0 v step rc ih1 ih1x ih2 =>
    intro hwf hsy
    rw [itemsSynced, itemSynced] at hsy
    obtain ⟨⟨⟨c, hcid, p, hlknode⟩, hsych⟩, hsyrest⟩ := hsy
    subst hcid
    have hlk : (s.lookup c).isSome = true := by rw [hlknode]; rfl
    have hupd : s.updateTitle c name = s :=
      updateTitle_eq_self s c name _ hwf hlknode rfl
    have hv1 : v.1 = some c := by
      have hv : v = verifyChromeId s (some c) flag := rfl
      rw [hv, verify_bound s c flag hlk]
    have hstep : step = (c, s.updateTitle c name, [(flag, HostOp.update c name none)]) := by
      have hsdef : step = match v.1 with
        | none =>
          let cr := s.create parent name none
          (cr.1, cr.2, [(flag, HostOp.create parent name none)])
        | some c2 => (c2, s.updateTitle c2 name, [(flag, HostOp.update c2 name none)]) := rfl
      rw [hsdef, hv1]
    have hstep1 : step.1 = c := by rw [hstep]
    have hstep21 : step.2.1 = s := by rw [hstep]; dsimp only; rw [hupd]
    rw [hstep1, hstep21] at ih1x
    obtain ⟨hchitems, hchstore, hchtrace⟩ := ih1x hwf hsych
    have hrc : rc.store = s := by
      have hrcdef : rc = syncItemsToChrome children step.1 step.2.1 flag := rfl
      rw [hrcdef, hstep1, hstep21, hchstore]
    rw [hrc] at ih2
    obtain ⟨hritems, hrstore, hrtrace⟩ := ih2 hwf hsyrest
    rw [syncItemsToChrome]
    have hvfull : verifyChromeId s (some c) flag = (some c, [(flag, HostOp.get c)]) :=
      verify_bound s c flag hlk
    rw [hvfull]
    dsimp only
    rw [hupd]
    refine ⟨?_, ?_, ?_⟩
    · dsimp only
      rw [hchstore, hchitems, hritems]
    · dsimp only
      rw [hchstore, hrstore]
    · dsimp only
      rw [hchstore]
      rw [List.all_append, List.all_append, List.all_append, hchtrace, hrtrace]
      simp [HostOp.isCreate]
  | case3 parent s flag rest id name url cid0 v step ih =>
    intro hwf hsy
    rw [itemsSynced, itemSynced] at hsy
    obtain ⟨⟨c, hcid, p, hlknode⟩, hsyrest⟩ := hsy
    subst hcid
    have hlk : (s.lookup c).isSome = true := by rw [hlknode]; rfl
    have hupd : s.updateTitleUrl c name url = s :=
      updateTitleUrl_eq_self s c name url _ hwf hlknode rfl rfl
    have hv1 : v.1 = some c := by
      have hv : v = verifyChromeId s (some c) flag := rfl
      rw [hv, verify_bound s c flag hlk]
    have hstep : step = (c, s.updateTitleUrl c name url,
        [(flag, HostOp.update c name (some url))]) := by
      have hsdef : step = match v.1 with
        | none =>
          let cr := s.create parent name (some url)
          (cr.1, cr.2, [(flag, HostOp.create parent name (some url))])
        | some c2 => (c2, s.updateTitleUrl c2 name url,
            [(flag, HostOp.update c2 name (some url))]) := rfl
      rw [hsdef, hv1]
    have hstep21 : step.2.1 = s := by rw [hstep]; dsimp only; rw [hupd]
    rw [hstep21] at ih
    obtain ⟨hritems, hrstore, hrtrace⟩ := ih hwf hsyrest
    rw [syncItemsToChrome]
    rw [verify_bound s c flag hlk]
    dsimp only
    rw [hupd]
    refine ⟨?_, ?_, ?_⟩
    · dsimp only
      rw [hritems]
    · dsimp only
      rw [hrstore]
    · dsimp only
      rw [List.all_append, List.all_append, hrtrace]
      simp [HostOp.isCreate]

theorem itemsSynced_bound (s : HostStore) (its : List Item) (h : itemsSynced s its) :
    itemsBound its = true := by
  induction its using itemsIds.induct
    (motive_1 := fun it => itemSynced s it → itemBound it = true) with
  | case1 i name url c h2 =>
    rw [itemSynced] at h2
    obtain ⟨cid, hc, -⟩ := h2
    rw [itemBound, hc]
    rfl
  | case2 i name exp children c ih h2 =>
    rw [itemSynced] at h2
    obtain ⟨⟨cid, hc, -⟩, hch⟩ := h2
    rw [itemBound, hc]
    simp [ih hch]
  | case3 => rw [itemsBound]
  | case4 it rest ih1 ih2 =>
    rw [itemsSynced] at h
    rw [itemsBound, ih1 h.1, ih2 h.2]
    rfl

theorem syncSpace_unbound (box : Box) (s : HostStore) (f : Bool)
    (hb : box.chromeId = none) :
    syncSpaceToChrome true box s f =
      SpaceSyncResult.mk
        (Box.mk box.id box.title box.color
          (syncItemsToChrome box.items s.nextId
            (s.create BOOKMARKS_BAR_ID box.title none).2 true).items
          (some s.nextId))
        (syncItemsToChrome box.items s.nextId
          (s.create BOOKMARKS_BAR_ID box.title none).2 true).store
        false
        ([(true, HostOp.create BOOKMARKS_BAR_ID box.title none)]
          ++ (syncItemsToChrome box.items s.nextId
            (s.create BOOKMARKS_BAR_ID box.title none).2 true).trace) := by
  rw [syncSpaceToChrome, hb]
  rfl

theorem box_eta_chromeId (box : Box) (c : Nat) (hc : box.chromeId = some c) :
    ({ box with chromeId := some c, items := box.items } : Box) = box := by
  rcases box with ⟨i, t, col, its, cid⟩
  simp only at hc
  rw [hc]

theorem syncSpace_noop (box : Box) (s : HostStore) (f : Bool)
    (hwf : WFStore s) (hsy : boxSynced s box) :
    (syncSpaceToChrome true box s f).box = box
    ∧ (syncSpaceToChrome true box s f).store = s
    ∧ ((syncSpaceToChrome true box s f).trace.all (fun p => !p.2.isCreate)) = true := by
  obtain ⟨c, hc, ⟨p, hlknode⟩, hsyit⟩ := hsy
  have hlk : (s.lookup c).isSome = true := by rw [hlknode]; rfl
  have hupd : s.updateTitle c box.title = s :=
    updateTitle_eq_self s c box.title _ hwf hlknode rfl
  obtain ⟨hitems, hstore, htrace⟩ := syncItems_noop box.items c s true hwf hsyit
  rw [syncSpaceToChrome, hc]
  simp only [Bool.not_true]
  rw [if_neg (by simp)]
  rw [verify_bound s c true hlk]
  dsimp only
  rw [hupd]
  refine ⟨?_, ?_, ?_⟩
  · dsimp only
    rw [hitems]
    exact box_eta_chromeId box c hc
  · dsimp only
    rw [hstore]
  · dsimp only
    rw [List.all_append, List.all_append, htrace]
    simp [HostOp.isCreate]


theorem verify_trace_flag (s : HostStore) (cid : Option Nat) (flag : Bool) :
    ∀ p ∈ (verifyChromeId s cid flag).2, p.1 = flag := by
  cases cid <;> simp [verifyChromeId]

theorem syncItems_trace_flag (items : List Item) (parent : Nat) (s : HostStore) (flag : Bool) :
    ∀ p ∈ (syncItemsToChrome items parent s flag).trace, p.1 = flag := by
  induction items, parent, s, flag using syncItemsToChrome.induct with
  | case1 parent s flag => simp [syncItemsToChrome]
  | case2 parent s flag rest id name exp children cid0 v step rc ih1 ih1x ih2 =>
    intro p hp
    rw [syncItemsToChrome] at hp
    simp only [List.mem_append] at hp
    rcases hp with ((hp | hp) | hp) | hp
    · exact verify_trace_flag s cid0 flag p hp
    · rcases hcv : (verifyChromeId s cid0 flag).1 with _ | c <;> rw [hcv] at hp <;> simp at hp <;> simp [hp]
    · exact ih1 p hp
    · exact ih2 p hp
  | case3 parent s flag rest id name url cid0 v step ih =>
    intro p hp
    rw [syncItemsToChrome] at hp
    simp only [List.mem_append] at hp
    rcases hp with (hp | hp) | hp
    · exact verify_trace_flag s cid0 flag p hp
    · rcases hcv : (verifyChromeId s cid0 flag).1 with _ | c <;> rw [hcv] at hp <;> simp at hp <;> simp [hp]
    · exact ih p hp

theorem syncSpace_trace_flag (box : Box) (s : HostStore) (f : Bool) :
    ∀ p ∈ (syncSpaceToChrome true box s f).trace, p.1 = true := by
  intro p hp
  rw [syncSpaceToChrome] at hp
  simp only [Bool.not_true, Bool.false_eq_true, if_false, List.mem_append] at hp
  rcases hp with (hp | hp) | hp
  · exact verify_trace_flag s box.chromeId true p hp
  · rcases hcv : (verifyChromeId s box.chromeId true).1 with _ | c <;> rw [hcv] at hp <;>
      simp at hp <;> simp [hp]
  · exact syncItems_trace_flag box.items _ _ true p hp

theorem syncSpace_flag_false (box : Box) (s : HostStore) (f : Bool) :
    (syncSpaceToChrome true box s f).flag = false := rfl

theorem syncLoop_trace_flag (boxes : List Box) :
    ∀ (s : HostStore) (f : Bool), ∀ p ∈ (syncSpacesLoop boxes s f).trace, p.1 = true := by
  induction boxes with
  | nil => intro s f p hp; simp [syncSpacesLoop] at hp
  | cons b rest ih =>
    intro s f p hp
    rw [syncSpacesLoop] at hp
    simp only [List.mem_append] at hp
    rcases hp with hp | hp
    · exact syncSpace_trace_flag b s f p hp
    · exact ih _ _ p hp

theorem syncAll_trace_flag (boxes : List Box) (s : HostStore) (f : Bool) :
    ∀ p ∈ (syncAllSpacesToChrome true boxes s f).trace, p.1 = true := by
  intro p hp
  rw [syncAllSpacesToChrome] at hp
  exact syncLoop_trace_flag boxes s true p hp

theorem syncAll_flag_false (boxes : List Box) (s : HostStore) (f : Bool) :
    (syncAllSpacesToChrome true boxes s f).flag = false := rfl

theorem hexDigitChar_mem (n : Nat) : hexDigitChar n ∈ "0123456789abcdef".data := by
  unfold hexDigitChar
  split <;> decide

theorem clamp01_nonneg (v : ℚ) : 0 ≤ clamp01 v := le_max_left 0 _

theorem clamp01_le_one (v : ℚ) : clamp01 v ≤ 1 :=
  max_le (by norm_num) (min_le_left 1 v)

theorem jsRound_channel_nonneg (v : ℚ) : 0 ≤ jsRound (clamp01 v * 255) := by
  unfold jsRound
  apply Int.floor_nonneg.mpr
  have h0 : 0 ≤ clamp01 v * 255 := mul_nonneg (clamp01_nonneg v) (by norm_num)
  linarith

theorem jsRound_channel_le (v : ℚ) : jsRound (clamp01 v * 255) ≤ 255 := by
  unfold jsRound
  have h1 : clamp01 v * 255 ≤ 255 := by
    have := clamp01_le_one v
    nlinarith
  have h2 : clamp01 v * 255 + 1 / 2 < ((256 : ℤ) : ℚ) := by push_cast; linarith
  have h3 : ⌊clamp01 v * 255 + 1 / 2⌋ < 256 := Int.floor_lt.mpr h2
  omega

theorem natToHex_spec (n : Nat) (h : n ≤ 255) :
    ((natToHex n).length = 1 ∨ (natToHex n).length = 2)
    ∧ ∀ c ∈ (natToHex n).data, c ∈ "0123456789abcdef".data := by
  by_cases h16 : n < 16
  · rw [natToHex]
    simp only [h16, dif_pos]
    constructor
    · left; rfl
    · intro c hc
      simp only [String.singleton] at hc
      simp at hc
      subst hc
      exact hexDigitChar_mem n
  · rw [natToHex]
    simp only [h16, dif_neg, not_false_iff]
    have hdiv : n / 16 < 16 := by omega
    rw [natToHex]
    simp only [hdiv, dif_pos]
    constructor
    · right
      simp [String.length_append]
    · intro c hc
      simp only [String.data_append, List.mem_append] at hc
      rcases hc with hc | hc <;> · simp [String.singleton] at hc; subst hc; apply hexDigitChar_mem

theorem padStart2_spec (s : String) (hl : s.length = 1 ∨ s.length = 2)
    (hc : ∀ c ∈ s.data, c ∈ "0123456789abcdef".data) :
    (padStart2 s).length = 2 ∧ ∀ c ∈ (padStart2 s).data, c ∈ "0123456789abcdef".data := by
  unfold padStart2
  rcases hl with hl | hl
  · rw [if_neg (by omega), if_pos hl]
    refine ⟨by rw [String.length_append]; rw [hl]; rfl, ?_⟩
    intro c hcm
    rw [String.data_append] at hcm
    rcases List.mem_append.mp hcm with hcm | hcm
    · have : c = '0' := by simpa using hcm
      subst this; decide
    · exact hc c hcm
  · rw [if_pos (by omega)]
    exact ⟨hl, hc⟩

theorem natToHex_255 : natToHex 255 = "ff" := by
  rw [natToHex]
  norm_num
  rw [natToHex]
  norm_num
  rfl

theorem channelHex_overflow_eval : channelHex (14/10 : ℚ) = "ff" := by
  have h1 : clamp01 (14/10 : ℚ) = 1 := by
    unfold clamp01
    rw [min_eq_left (by norm_num), max_eq_right (by norm_num)]
  have h2 : jsRound ((1 : ℚ) * 255) = 255 := by
    unfold jsRound
    rw [one_mul]
    exact Int.floor_eq_iff.mpr (by constructor <;> norm_num)
  unfold channelHex
  rw [h1, h2]
  show padStart2 (natToHex 255) = "ff"
  rw [natToHex_255]
  rfl

theorem channelHex_underflow_eval : channelHex (-(2/10) : ℚ) = "00" := by
  have h1 : clamp01 (-(2/10) : ℚ) = 0 := by
    unfold clamp01
    rw [min_eq_right (by norm_num), max_eq_left (by norm_num)]
  have h2 : jsRound ((0 : ℚ) * 255) = 0 := by
    unfold jsRound
    rw [zero_mul, zero_add]
    exact Int.floor_eq_iff.mpr (by constructor <;> norm_num)
  unfold channelHex
  rw [h1, h2]
  show padStart2 (natToHex 0) = "00"
  rw [natToHex]
  norm_num
  rfl

theorem hasDescendant_eq_false (items : List Item) (cid : Nat)
    (h : cid ∉ itemsChromeIds items) : hasDescendantWithChromeId items cid = false := by
  induction items, cid using hasDescendantWithChromeId.induct with
  | case1 cid => simp [hasDescendantWithChromeId]
  | case2 it rest cid hit =>
    exfalso
    apply h
    cases it with
    | bookmark id name url c =>
      simp [Item.chromeId] at hit
      simp [itemsChromeIds, itemChromeIds, hit]
    | folder id name exp children c =>
      simp [Item.chromeId] at hit
      simp [itemsChromeIds, itemChromeIds, hit]
  | case3 rest cid id name exp children c hne ih1 ih2 =>
    rw [itemsChromeIds, itemChromeIds] at h
    simp only [List.append_assoc, List.mem_append, not_or] at h
    rw [hasDescendantWithChromeId]
    simp only [hne, if_false]
    rw [ih1 h.2.1, ih2 h.2.2]
    rfl
  | case4 rest cid id name url c hne ih =>
    rw [itemsChromeIds, itemChromeIds] at h
    simp only [List.mem_append, not_or] at h
    rw [hasDescendantWithChromeId]
    simp only [hne, if_false]
    exact ih h.2

theorem findParentSpace_eq_none (boxes : List Box) (cid : Nat)
    (h : ∀ b ∈ boxes, b.chromeId ≠ some cid ∧ cid ∉ itemsChromeIds b.items) :
    findParentSpace boxes cid = none := by
  induction boxes with
  | nil => rfl
  | cons b rest ih =>
    have hb := h b (by simp)
    rw [findParentSpace]
    rw [if_neg hb.1, if_neg (by simp [hasDescendant_eq_false b.items cid hb.2])]
    exact ih (fun b2 hb2 => h b2 (by simp [hb2]))

/-- Claim C1 (code bug): moving a folder into one of its own descendants is NOT
rejected as a no-op. The guard in `onMoveItem` only compares the target parent
with the moved item itself, so moving folder A into its child folder B removes
A (and its whole subtree, including B) and never reinserts it: the document
loses the item, contradicting the claimed unchanged-document behaviour. -/
theorem C1_descendant_move_removes_subtree :
    onMoveItem [⟨"bx", "Space", "#fff",
        [Item.folder "A" "Folder A" true [Item.folder "B" "Folder B" true [] none] none],
        none⟩] "bx" "A" "bx" (some "B")
      = [⟨"bx", "Space", "#fff", [], none⟩]
    ∧ onMoveItem [⟨"bx", "Space", "#fff",
        [Item.folder "A" "Folder A" true [Item.folder "B" "Folder B" true [] none] none],
        none⟩] "bx" "A" "bx" (some "A")
      = [⟨"bx", "Space", "#fff",
          [Item.folder "A" "Folder A" true [Item.folder "B" "Folder B" true [] none] none],
          none⟩]
    ∧ ([⟨"bx", "Space", "#fff", [], none⟩] : List Box)
        ≠ [⟨"bx", "Space", "#fff",
            [Item.folder "A" "Folder A" true [Item.folder "B" "Folder B" true [] none] none],
            none⟩] := by
  refine ⟨?_, ?_, ?_⟩
  · simp [onMoveItem, findBox, findItemById, updateBox, removeItemById, spliceById,
      removeInChildren, appendChildExpand, Item.id, Item.isFolder, modifyItemById]
  · simp [onMoveItem, findBox, findItemById, updateBox, removeItemById, spliceById,
      removeInChildren, appendChildExpand, Item.id, Item.isFolder, modifyItemById]
  · simp

/-- Claim C2: push idempotence. For a well-formed host store and a fully
unbound space, the first push creates exactly one host node per local entity
(space plus every item), binds every entity to a distinct fresh host identity,
and a second push over the result changes neither the box nor the store and
issues no create operation. -/
theorem C2_push_idempotent :
    ∀ (box : Box) (s : HostStore) (f f2 : Bool),
      WFStore s → box.chromeId = none → itemsUnbound box.items = true →
      (syncSpaceToChrome true (syncSpaceToChrome true box s f).box
          (syncSpaceToChrome true box s f).store f2).box
        = (syncSpaceToChrome true box s f).box
      ∧ (syncSpaceToChrome true (syncSpaceToChrome true box s f).box
          (syncSpaceToChrome true box s f).store f2).store
        = (syncSpaceToChrome true box s f).store
      ∧ ((syncSpaceToChrome true (syncSpaceToChrome true box s f).box
          (syncSpaceToChrome true box s f).store f2).trace.all
          (fun p => !p.2.isCreate)) = true
      ∧ (syncSpaceToChrome true box s f).store.nodes.length
        = s.nodes.length + (1 + itemsCount box.items)
      ∧ (boxChromeIds (syncSpaceToChrome true box s f).box).Nodup
      ∧ (syncSpaceToChrome true box s f).box.chromeId.isSome = true
      ∧ itemsBound (syncSpaceToChrome true box s f).box.items = true := by
  intro box s f f2 hwf hb hub
  rw [syncSpace_unbound box s f hb]
  dsimp only
  set s2 := (s.create BOOKMARKS_BAR_ID box.title none).2 with hs2
  have hwf2 : WFStore s2 := create_WF s BOOKMARKS_BAR_ID box.title none hwf
  have hext2 : storeExtends s s2 := create_extends s BOOKMARKS_BAR_ID box.title none
  have hlk2 : s2.lookup s.nextId = some ⟨BOOKMARKS_BAR_ID, box.title, none⟩ :=
    create_lookup s BOOKMARKS_BAR_ID box.title none hwf
  obtain ⟨sy_it, wf_ri, ext_ri, nid_ri, len_ri, rng_it, nd_it⟩ :=
    syncItems_establish box.items s.nextId s2 true hwf2 hub
  set riv := syncItemsToChrome box.items s.nextId s2 true with hriv
  have hnid2 : s2.nextId = s.nextId + 1 := create_nextId s BOOKMARKS_BAR_ID box.title none
  have hb1sy : boxSynced riv.store
      (Box.mk box.id box.title box.color riv.items (some s.nextId)) := by
    refine ⟨s.nextId, rfl, ⟨BOOKMARKS_BAR_ID, ?_⟩, ?_⟩
    · exact lookup_extends_some ext_ri hlk2
    · exact sy_it
  obtain ⟨hn1, hn2, hn3⟩ := syncSpace_noop
    (Box.mk box.id box.title box.color riv.items (some s.nextId)) riv.store f2 wf_ri hb1sy
  refine ⟨hn1, hn2, hn3, ?_, ?_, rfl, ?_⟩
  · rw [len_ri, create_length]
    omega
  · rw [boxChromeIds]
    dsimp only
    simp only [Option.toList_some, List.singleton_append]
    rw [List.nodup_cons]
    refine ⟨?_, nd_it⟩
    intro hmem
    have := rng_it _ hmem
    rw [hnid2] at this
    omega
  · exact itemsSynced_bound _ _ sy_it

/-- Witness for C2 at a one-bookmark space and an empty well-formed store. -/
theorem C2_push_idempotent_witness :
    WFStore ⟨[], 2⟩
    ∧ (Box.mk "b1" "Work" "#111"
        [Item.bookmark "i1" "Docs" "https://docs.example.com" none] none).chromeId = none
    ∧ itemsUnbound [Item.bookmark "i1" "Docs" "https://docs.example.com" none] = true
    ∧ (syncSpaceToChrome true
        (Box.mk "b1" "Work" "#111"
          [Item.bookmark "i1" "Docs" "https://docs.example.com" none] none)
        ⟨[], 2⟩ false).box.chromeId.isSome = true := by
  have h1 : WFStore (⟨[], 2⟩ : HostStore) := ⟨by simp, by simp⟩
  have h3 : itemsUnbound [Item.bookmark "i1" "Docs" "https://docs.example.com" none] = true := by
    simp [itemsUnbound, itemUnbound]
  exact ⟨h1, rfl, h3,
    (C2_push_idempotent
      (Box.mk "b1" "Work" "#111"
        [Item.bookmark "i1" "Docs" "https://docs.example.com" none] none)
      ⟨[], 2⟩ false false h1 rfl h3).2.2.2.2.2.1⟩

/-- Counterexample to the original C3: a historical record carrying the
maximal timestamp ties the container sentinel, and the strict comparison in
`addItemIfNewer` then keeps the historical record, so the container record
does not always win. -/
theorem C3_container_tie_counterexample :
    mapGetRec (buildMasterMap
        [⟨some ⟨"x", some "Old", [], none, none⟩, some MAX_SAFE_INTEGER⟩] []
        [⟨"x", some "New", [], none, none⟩]) "x"
      = some ⟨"x", some "Old", [], none, none⟩
    ∧ (⟨"x", some "Old", [], none, none⟩ : ArcItemRec) ≠ ⟨"x", some "New", [], none, none⟩ := by
  constructor
  · decide
  · decide

/-- Claim C3 (amended): timestamp-wins merge. For one identity seen with
timestamps 10 and 20, the reduced map keeps the timestamp-20 record (in either
arrival order); and a container (current-state) record beats any historical
record whose timestamp is strictly below `MAX_SAFE_INTEGER`. -/
theorem C3_timestamp_merge :
    (∀ (r1 r2 : ArcItemRec), r1.id ≠ "" → r1.id = r2.id →
      mapGetRec (buildMasterMap [⟨some r1, some 10⟩, ⟨some r2, some 20⟩] [] []) r2.id = some r2
      ∧ mapGetRec (buildMasterMap [⟨some r2, some 20⟩, ⟨some r1, some 10⟩] [] []) r2.id = some r2)
    ∧ (∀ (rh rc : ArcItemRec) (d : Nat), rh.id ≠ "" → rh.id = rc.id → d < MAX_SAFE_INTEGER →
      mapGetRec (buildMasterMap [⟨some rh, some d⟩] [] [rc]) rc.id = some rc) := by
  constructor
  · intro r1 r2 h1 h2
    constructor
    · simp [buildMasterMap, addSyncEntries, addContainerItems, addItemIfNewer,
        mapGetDate, mapGetRec, mapSet, h1, ← h2]
    · simp [buildMasterMap, addSyncEntries, addContainerItems, addItemIfNewer,
        mapGetDate, mapGetRec, mapSet, h1, ← h2]
  · intro rh rc d h1 h2 h3
    have hmax : 0 < MAX_SAFE_INTEGER := by decide
    by_cases hd : 0 < d <;>
      simp [buildMasterMap, addSyncEntries, addContainerItems, addItemIfNewer,
        mapGetDate, mapGetRec, mapSet, h1, ← h2, h3, hd, hmax]

/-- Witness for C3 at two concrete conflicting records. -/
theorem C3_timestamp_merge_witness :
    ((⟨"x", some "A", [], none, none⟩ : ArcItemRec).id ≠ "")
    ∧ ((⟨"x", some "A", [], none, none⟩ : ArcItemRec).id
        = (⟨"x", some "B", [], none, none⟩ : ArcItemRec).id)
    ∧ mapGetRec (buildMasterMap
        [⟨some ⟨"x", some "A", [], none, none⟩, some 10⟩,
         ⟨some ⟨"x", some "B", [], none, none⟩, some 20⟩] [] []) "x"
      = some ⟨"x", some "B", [], none, none⟩ := by
  refine ⟨by decide, rfl, ?_⟩
  exact (C3_timestamp_merge.1 ⟨"x", some "A", [], none, none⟩ ⟨"x", some "B", [], none, none⟩
    (by decide) rfl).1

/-- Counterexample to the original C4: a record carrying tab data without a
saved URL but with a title `"X"` is dropped entirely — it does not fall through
to the Folder branch as the original claim's case split requires. -/
theorem C4_titled_tab_without_url_counterexample :
    buildArcNode 5 ⟨"b", some "X", [], none, some ⟨none, none⟩⟩ [] = none
    ∧ truthyStr (some "X") = true := by
  constructor
  · rfl
  · rfl

/-- Claim C4 (amended): Arc tree materialization. A record with tab data and
a truthy saved URL becomes a Bookmark whose name prefers the custom title,
then the saved page title, then `"Untitled"`; a record with NO tab data and a
title or children becomes a Folder recursing through the reduced map; a record
with no tab data, no title and no children is dropped; and a record with tab
data but no saved URL is also dropped (even if titled). -/
theorem C4_arc_materialization :
    ∀ (fuel : Nat) (item : ArcItemRec) (m : MasterMap),
      (∀ tab, item.tab = some tab → truthyStr tab.savedURL = true →
        buildArcNode (fuel + 1) item m
          = some (.bookmark (firstTruthy item.title tab.savedTitle "Untitled")
              (tab.savedURL.getD "")))
      ∧ (item.tab = none → (truthyStr item.title = true ∨ item.childrenIds ≠ []) →
        buildArcNode (fuel + 1) item m
          = some (.folder (if truthyStr item.title then item.title.getD "" else "Folder") true
              (item.childrenIds.filterMap fun cid =>
                (mapGetRec m cid).bind fun child => buildArcNode fuel child m)))
      ∧ (item.tab = none → truthyStr item.title = false → item.childrenIds = [] →
        buildArcNode (fuel + 1) item m = none)
      ∧ (∀ tab, item.tab = some tab → truthyStr tab.savedURL = false →
        buildArcNode (fuel + 1) item m = none) := by
  intro fuel item m
  refine ⟨?_, ?_, ?_, ?_⟩
  · intro tab htab hurl
    simp [buildArcNode, htab, hurl]
  · intro htab hfold
    rcases hfold with hf | hf <;> simp [buildArcNode, htab, hf]
  · intro htab ht hch
    simp [buildArcNode, htab, ht, hch]
  · intro tab htab hurl
    simp [buildArcNode, htab, hurl]

/-- Witness for C4 at a record with a custom title and a saved URL. -/
theorem C4_arc_materialization_witness :
    (ArcItemRec.mk "i" (some "Custom") [] none
        (some (TabRec.mk (some "Page") (some "http://u")))).tab
      = some (TabRec.mk (some "Page") (some "http://u"))
    ∧ truthyStr (some "http://u") = true
    ∧ buildArcNode 4 (ArcItemRec.mk "i" (some "Custom") [] none
        (some (TabRec.mk (some "Page") (some "http://u")))) []
      = some (ArcNode.bookmark "Custom" "http://u") := by
  refine ⟨rfl, by decide, ?_⟩
  have h := (C4_arc_materialization 3
    (ArcItemRec.mk "i" (some "Custom") [] none
      (some (TabRec.mk (some "Page") (some "http://u")))) []).1
    (TabRec.mk (some "Page") (some "http://u")) rfl (by decide)
  simpa [firstTruthy, truthyStr] using h

/-- Claim C5: given top-level children `[A, B, C]` with distinct subtree
identities, `reorder(C, A, before)` yields `[C, A, B]`; the dual call
`reorder(A, C, before)` yields `[B, A, C]`, exhibiting that the insertion
index is computed on the post-removal array; and a persisted document decodes
back to itself, preserving the exact child order. -/
theorem C5_reorder_roundtrip (bx : Box) (A B C : Item)
    (hitems : bx.items = [A, B, C]) (hnd : (itemsIds bx.items).Nodup) :
    onReorderItem [bx] bx.id C.id bx.id A.id "before" = [{ bx with items := [C, A, B] }]
    ∧ onReorderItem [bx] bx.id A.id bx.id C.id "before" = [{ bx with items := [B, A, C] }]
    ∧ ∀ d : Document, decodeDocument (encodeDocument d) = some d :=
  ⟨reorder_C_before_A bx A B C hitems hnd, reorder_A_before_C bx A B C hitems hnd,
    fun d => decode_encode_document d⟩

/-- Witness for C5 at a three-bookmark space. -/
theorem C5_reorder_roundtrip_witness :
    ((Box.mk "s" "S" "#000"
        [Item.bookmark "a" "A" "u1" none, Item.bookmark "b" "B" "u2" none,
         Item.bookmark "c" "C" "u3" none] none).items
      = [Item.bookmark "a" "A" "u1" none, Item.bookmark "b" "B" "u2" none,
         Item.bookmark "c" "C" "u3" none])
    ∧ (itemsIds [Item.bookmark "a" "A" "u1" none, Item.bookmark "b" "B" "u2" none,
         Item.bookmark "c" "C" "u3" none]).Nodup
    ∧ onReorderItem
        [Box.mk "s" "S" "#000"
          [Item.bookmark "a" "A" "u1" none, Item.bookmark "b" "B" "u2" none,
           Item.bookmark "c" "C" "u3" none] none] "s" "c" "s" "a" "before"
      = [Box.mk "s" "S" "#000"
          [Item.bookmark "c" "C" "u3" none, Item.bookmark "a" "A" "u1" none,
           Item.bookmark "b" "B" "u2" none] none] := by
  have hnd : (itemsIds [Item.bookmark "a" "A" "u1" none, Item.bookmark "b" "B" "u2" none,
      Item.bookmark "c" "C" "u3" none]).Nodup := by
    simp [itemsIds, itemIds]
  exact ⟨rfl, hnd,
    (C5_reorder_roundtrip
      (Box.mk "s" "S" "#000"
        [Item.bookmark "a" "A" "u1" none, Item.bookmark "b" "B" "u2" none,
         Item.bookmark "c" "C" "u3" none] none)
      (Item.bookmark "a" "A" "u1" none) (Item.bookmark "b" "B" "u2" none)
      (Item.bookmark "c" "C" "u3" none) rfl hnd).1⟩

/-- Claim C6: while the global syncing flag is set, the registered listener
returns the state unchanged for every event kind; and the full push pass
performs every host operation with the flag set, clearing it on completion,
so pull handlers are suppressed for the whole push. -/
theorem C6_sync_flag_suppression :
    (∀ (st : AppState) (fid : String) (ev : ChromeEvent), chromeListener true st fid ev = st)
    ∧ (∀ (boxes : List Box) (s : HostStore) (f : Bool),
        (∀ p ∈ (syncAllSpacesToChrome true boxes s f).trace, p.1 = true)
        ∧ (syncAllSpacesToChrome true boxes s f).flag = false) :=
  ⟨fun _ _ _ => rfl,
    fun boxes s f => ⟨syncAll_trace_flag boxes s f, syncAll_flag_false boxes s f⟩⟩

/-- Witness for C6: the create operation of a one-space push is delivered with
the flag set. -/
theorem C6_sync_flag_suppression_witness :
    ((true, HostOp.create BOOKMARKS_BAR_ID "W" none)
        ∈ (syncAllSpacesToChrome true [Box.mk "w" "W" "#0" [] none] ⟨[], 0⟩ false).trace)
    ∧ ((true, HostOp.create BOOKMARKS_BAR_ID "W" none) : Bool × HostOp).1 = true := by
  have hm : (true, HostOp.create BOOKMARKS_BAR_ID "W" none)
      ∈ (syncAllSpacesToChrome true [Box.mk "w" "W" "#0" [] none] ⟨[], 0⟩ false).trace := by
    rw [syncAllSpacesToChrome]
    simp only [Bool.not_true, Bool.false_eq_true, if_false]
    rw [syncSpacesLoop]
    rw [syncSpace_unbound _ _ _ rfl]
    rw [syncItems_nil]
    simp [syncSpacesLoop]
  exact ⟨hm,
    (C6_sync_flag_suppression.2 [Box.mk "w" "W" "#0" [] none] ⟨[], 0⟩ false).1 _ hm⟩

/-- Claim C7: pull containment. A host `created` notification whose parent
identity is bound to no space and occurs in no synced item subtree leaves the
application state unchanged. -/
theorem C7_pull_containment (st : AppState) (freshId : String) (cid : Nat)
    (bm : ChromeBookmarkNode)
    (h : ∀ b ∈ st.boxes, b.chromeId ≠ some bm.parentId ∧ bm.parentId ∉ itemsChromeIds b.items) :
    handleChromeBookmarkChange st freshId (.created cid bm) = st := by
  rw [handleChromeBookmarkChange]
  rw [findParentSpace_eq_none st.boxes bm.parentId h]

/-- Witness for C7 at a one-space state and an unrelated created node. -/
theorem C7_pull_containment_witness :
    (∀ b ∈ [Box.mk "b" "T" "#c" [] (some 5)],
        b.chromeId ≠ some 99 ∧ (99 : Nat) ∉ itemsChromeIds b.items)
    ∧ handleChromeBookmarkChange (AppState.mk [Box.mk "b" "T" "#c" [] (some 5)] none) "f1"
        (.created 7 (ChromeBookmarkNode.mk 99 "New" none))
      = AppState.mk [Box.mk "b" "T" "#c" [] (some 5)] none := by
  have hh : ∀ b ∈ [Box.mk "b" "T" "#c" [] (some 5)],
      b.chromeId ≠ some 99 ∧ (99 : Nat) ∉ itemsChromeIds b.items := by
    intro b hb
    rw [List.mem_singleton] at hb
    subst hb
    exact ⟨by decide, by simp [itemsChromeIds]⟩
  exact ⟨hh, C7_pull_containment (AppState.mk [Box.mk "b" "T" "#c" [] (some 5)] none) "f1" 7
    (ChromeBookmarkNode.mk 99 "New" none) hh⟩

/-- Claim C8 (implicit edge case): a reorder whose target sibling is the moved
item itself, within one box, removes the item: the splice succeeds, the index
lookup for the removed sibling fails, and the function returns without
reinserting — the item is gone from the resulting document. -/
theorem C8_self_target_reorder (bx : Box) (i : String) (it : Item) (pos : String)
    (hnd : (itemsIds bx.items).Nodup)
    (hfind : findItemById bx.items i = some it) :
    onReorderItem [bx] bx.id i bx.id i pos
      = [{ bx with items := (removeItemById bx.items i).1 }]
    ∧ (removeItemById bx.items i).2 = true
    ∧ findItemById (removeItemById bx.items i).1 i = none := by
  have hid : it.id = i := find_id bx.items i it hfind
  have hmem : i ∈ itemsIds bx.items := mem_of_find bx.items i it hfind
  have hgone : i ∉ itemsIds (removeItemById bx.items i).1 := remove_gone bx.items i hnd
  have hsubnd : (itemIds it).Nodup := hnd.sublist (find_sublist bx.items i it hfind)
  have hguard : ¬(it.isFolder = true ∧ isDescendant it i = true) := by
    rw [← hid]
    exact guard_false_of_nodup it hsubnd
  have hlevel : ∀ (l : List Item), i ∉ itemsIds l →
      List.findIdx? (fun it2 => it2.id == i) l = none := by
    intro l hl
    refine findIdx_none_of_gone l i ?_
    intro x hx heq
    exact hl (heq ▸ level_id_mem l x hx)
  refine ⟨?_, remove_success_of_mem bx.items i hmem,
    find_eq_none_of_not_mem _ i hgone⟩
  rw [onReorderItem]
  rw [findBox_singleton bx]
  dsimp only
  rw [hfind]
  dsimp only
  rw [if_neg hguard]
  rw [updateBox_singleton]
  have hfb1 : findBox [({ bx with items := (removeItemById bx.items i).1 } : Box)] bx.id
      = some { bx with items := (removeItemById bx.items i).1 } := by
    simp [findBox]
  rw [hfb1]
  dsimp only
  rcases hpp : findParentById bx.items i none with _ | pp
  · simp only
    rw [hlevel _ hgone]
  · rcases pp with _ | p
    · simp only
      rw [hlevel _ hgone]
    · simp only
      rcases hfp : findItemById (removeItemById bx.items i).1 p.id with _ | q
      · simp only [List.findIdx?_nil]
      · rcases q with ⟨qid, qname, qurl, qc⟩ | ⟨qid, qname, qexp, qcs, qc⟩
        · simp only [List.findIdx?_nil]
        · refine hlevel qcs ?_ ▸ ?_
          · intro hin
            apply hgone
            have h1 : (itemsIds qcs).Sublist (itemIds (Item.folder qid qname qexp qcs qc)) := by
              rw [itemIds]
              exact List.sublist_cons_self _ _
            have h2 := find_sublist _ _ _ hfp
            exact (h1.trans h2).mem hin
          · rfl

/-- Witness for C8 at a one-bookmark space reordered next to itself. -/
theorem C8_self_target_reorder_witness :
    (itemsIds [Item.bookmark "x" "X" "u" none]).Nodup
    ∧ findItemById [Item.bookmark "x" "X" "u" none] "x"
        = some (Item.bookmark "x" "X" "u" none)
    ∧ (removeItemById [Item.bookmark "x" "X" "u" none] "x").2 = true := by
  have hnd : (itemsIds [Item.bookmark "x" "X" "u" none]).Nodup := by
    simp [itemsIds, itemIds]
  have hf : findItemById [Item.bookmark "x" "X" "u" none] "x"
      = some (Item.bookmark "x" "X" "u" none) :=
    find_cons_self (Item.bookmark "x" "X" "u" none) []
  exact ⟨hnd, hf,
    (C8_self_target_reorder (Box.mk "s" "S" "#0" [Item.bookmark "x" "X" "u" none] none)
      "x" (Item.bookmark "x" "X" "u" none) "before" hnd hf).2.1⟩

/-- Claim C9: channel conversion clamps into [0, 1] then scales: 1.4 gives
`"ff"`, -0.2 gives `"00"`, and every channel renders as
`round(clamp(v, 0, 1) * 255)` in exactly two lowercase hex digits. -/
theorem C9_channel_clamp :
    channelHex (14/10 : ℚ) = "ff" ∧ channelHex (-(2/10) : ℚ) = "00"
    ∧ ∀ v : ℚ, channelHex v = padStart2 (natToHex (jsRound (clamp01 v * 255)).toNat)
        ∧ (channelHex v).length = 2
        ∧ ∀ c ∈ (channelHex v).data, c ∈ "0123456789abcdef".data := by
  refine ⟨channelHex_overflow_eval, channelHex_underflow_eval, fun v => ?_⟩
  have hb : (jsRound (clamp01 v * 255)).toNat ≤ 255 := by
    have := jsRound_channel_le v
    omega
  have hspec := natToHex_spec _ hb
  have hpad := padStart2_spec _ hspec.1 hspec.2
  exact ⟨rfl, hpad.1, hpad.2⟩

/-- Witness for C9: the digit of an out-of-range channel is a hex digit. -/
theorem C9_channel_clamp_witness :
    ('f' ∈ (channelHex (14/10 : ℚ)).data) ∧ 'f' ∈ "0123456789abcdef".data := by
  have hm : 'f' ∈ (channelHex (14/10 : ℚ)).data := by
    rw [channelHex_overflow_eval]
    decide
  exact ⟨hm, (C9_channel_clamp.2.2 (14/10 : ℚ)).2.2 'f' hm⟩

/-- Claim C10: with the host bookmark API absent, the full push returns its
box list unchanged, the single-space push returns its box unchanged, and both
removal helpers perform no host operation. -/
theorem C10_host_absent_noop :
    (∀ (boxes : List Box) (s : HostStore) (f : Bool),
      syncAllSpacesToChrome false boxes s f = ⟨boxes, s, f, []⟩)
    ∧ (∀ (box : Box) (s : HostStore) (f : Bool),
      syncSpaceToChrome false box s f = ⟨box, s, f, []⟩)
    ∧ (∀ (box : Box) (f : Bool), removeSpaceFromChrome false box f = (f, []))
    ∧ (∀ (it : Item) (f : Bool), removeItemFromChrome false it f = (f, [])) := by
  refine ⟨fun boxes s f => rfl, fun box s f => rfl, fun box f => ?_, fun it f => ?_⟩
  · cases h : box.chromeId <;> simp [removeSpaceFromChrome, h]
  · cases h : it.chromeId <;> simp [removeItemFromChrome, h]
